import Mathlib

/-!
Verification development for the auto-apply session engine of the
Auto-job-apply repository (file `server/autoApply.js`).

The engine is embedded shallowly:

* `Session` mirrors the document stored in the `autoApplySessions`
  collection (criteria snapshot, status, counters, embedded `logs` and
  `jobs` arrays).
* The background task `startAutoApplyProcess` is modelled as a pure
  function over an explicit run state `RState`.  Every MongoDB
  `updateOne` performed by the task becomes one `step`, which appends
  one entry `(tag, session-after-write)` to a trace; every
  `isSessionStopped` read becomes a `check` entry; every external
  browser interaction of the two site drivers (`searchLinkedInJobs`,
  `searchIndeedJobs`) becomes a `searchOp`/`applyOp` entry.
* The stop endpoint persisting a stop request concurrently is modelled
  by an injection time `stopAt`: before the primitive executed at clock
  `stopAt` the conditional stop update of `POST /stop/:sessionId` is
  applied to the document and a `stopW` entry is recorded.
* Adapter outcomes are supplied by the configuration: `search` yields
  either a scraped listing batch or a thrown navigation error, and
  `applyRes` tells for a listing whether the scripted application
  succeeds (`applied`), finds no one-click-apply button (`noButton`), or
  throws (`err`), matching the three branches of the per-job `try` block.

The HTTP handlers (`/start`, `/status/:sessionId`, `/stop/:sessionId`)
are modelled as pure functions over a store of `(id, Session)` pairs.
-/

inductive Status where
  | running
  | stopped
  | completed
  | error
deriving DecidableEq, Repr

inductive JobStatus where
  | found
  | applied
  | skipped
  | error
deriving DecidableEq, Repr

inductive LogType where
  | info
  | success
  | warning
  | error
deriving DecidableEq, Repr

inductive Source where
  | linkedin
  | indeed
deriving DecidableEq, Repr

structure LogEntry where
  message : String
  type : LogType
deriving DecidableEq, Repr

/-- A scraped job listing (`{title, company, location, url, source}`). -/
structure Listing where
  title : String
  company : String
  location : String
  url : String
  source : Source
deriving DecidableEq, Repr

/-- An entry of the session's `jobs` array: the listing spread together
with a `status` field (`{...job, status, foundAt}`). -/
structure FoundJob where
  job : Listing
  status : JobStatus
deriving DecidableEq, Repr

/-- The `autoApplySessions` document. -/
structure Session where
  userId : String
  status : Status
  jobTitles : List String
  locations : List String
  salaryRange : Option (Int × Int)
  excludeCompanies : List String
  includeRemote : Option Bool
  jobsFound : Nat
  applicationsSubmitted : Nat
  applicationsSkipped : Nat
  logs : List LogEntry
  jobs : List FoundJob
deriving DecidableEq, Repr

/-- Result of one `adapter.search(title, location)` scripted navigation:
either the scraped batch or a thrown navigation/selector error. -/
inductive SearchOutcome where
  | ok (listings : List Listing)
  | err (msg : String)
deriving DecidableEq, Repr

/-- Result of the per-job application attempt: `applied` (button found,
form submitted), `noButton` (no one-click-apply button on the page), or
`err` (navigation/form interaction threw). -/
inductive ApplyOutcome where
  | applied
  | noButton
  | err (msg : String)
deriving DecidableEq, Repr

/-- Everything a background run depends on: the criteria snapshot of the
session, the owner profile lookup, the behaviour of the two external
sites, and the clock tick at which a stop request is persisted (if any). -/
structure Config where
  userId : String
  jobTitles : List String
  locations : List String
  salaryRange : Option (Int × Int)
  excludeCompanies : List String
  includeRemote : Option Bool
  hasProfile : Bool
  search : Source → String → String → SearchOutcome
  applyRes : Source → Listing → ApplyOutcome
  stopAt : Option Nat

/-- Boolean substring test on character lists (JS `String.includes`). -/
def charsHavePre : List Char → List Char → Bool
  | [], _ => true
  | _ :: _, [] => false
  | a :: as, b :: bs => a == b && charsHavePre as bs

/-- Test `charsHaveSub hay needle`: `needle` occurs inside `hay`. -/
def charsHaveSub (needle : List Char) : List Char → Bool
  | [] => charsHavePre needle []
  | c :: cs => charsHavePre needle (c :: cs) || charsHaveSub needle cs

/-- JS `hay.includes(needle)` for strings. -/
def strIncludes (hay needle : String) : Bool :=
  charsHaveSub needle.data hay.data

/-- JS `toLowerCase()`, character by character. -/
def strToLower (s : String) : String :=
  String.mk (s.data.map Char.toLower)

/-- The exclusion filter of the apply loops:
`excludeCompanies.some(c => job.company.toLowerCase().includes(c.toLowerCase()))`. -/
def isExcluded (excludeCompanies : List String) (company : String) : Bool :=
  excludeCompanies.any (fun c => strIncludes (strToLower company) (strToLower c))

/-- The session document inserted by `POST /start`. -/
def freshSession (userId : String) (jobTitles locations : List String)
    (salaryRange : Option (Int × Int)) (excludeCompanies : List String)
    (includeRemote : Option Bool) : Session where
  userId := userId
  status := Status.running
  jobTitles := jobTitles
  locations := locations
  salaryRange := salaryRange
  excludeCompanies := excludeCompanies
  includeRemote := includeRemote
  jobsFound := 0
  applicationsSubmitted := 0
  applicationsSkipped := 0
  logs := [{ message := "Auto-apply session started", type := LogType.info }]
  jobs := []

def Config.initSession (cfg : Config) : Session :=
  freshSession cfg.userId cfg.jobTitles cfg.locations cfg.salaryRange
    cfg.excludeCompanies cfg.includeRemote

/-- Model of `isSessionStopped`: the status read performed before every
externally visible step (`!session || session.status !== 'running'`). -/
def isSessionStopped (s : Session) : Bool :=
  match s.status with
  | Status.running => false
  | _ => true

/-- The conditional update of `POST /stop/:sessionId`: only a `running`
document is set to `stopped` (filter `{status: 'running'}`), with a log
entry pushed in the same atomic update. -/
def stopUpdate (s : Session) : Session :=
  if s.status = Status.running then
    { s with status := Status.stopped,
             logs := s.logs ++
               [{ message := "Auto-apply session stopped by user", type := LogType.info }] }
  else s

/-- Trace tags: one per store write / store read / external operation. -/
inductive Tag where
  | logW (message : String) (ty : LogType)
  | jobsW (n : Nat)
  | cntW (submitted : Bool)
  | statusW (st : Status)
  | jobW (url : String) (st : JobStatus)
  | check (stopped : Bool)
  | searchOp (src : Source) (title : String) (location : String)
  | applyOp (src : Source) (lst : Listing)
  | stopW
deriving DecidableEq, Repr

abbrev Entry := Tag × Session

/-- Run state of the background task: current document, logical clock
(number of primitives executed), trace of observable steps, and the
local abort flag standing for the early `return`s of a site driver. -/
structure RState where
  sess : Session
  clock : Nat
  trace : List Entry
  brk : Bool
deriving Repr

/-- Apply the concurrent stop request if it is persisted exactly now. -/
def inject (cfg : Config) (st : RState) : RState :=
  match cfg.stopAt with
  | none => st
  | some n =>
      if st.clock = n then
        let s := stopUpdate st.sess
        { st with sess := s, trace := st.trace ++ [(Tag.stopW, s)] }
      else st

/-- One store write (`updateOne`): a single atomic document update,
observable as one snapshot. -/
def step (cfg : Config) (tag : Tag) (f : Session → Session) (st : RState) : RState :=
  let st1 := inject cfg st
  let s := f st1.sess
  { sess := s, clock := st1.clock + 1, trace := st1.trace ++ [(tag, s)], brk := st1.brk }

/-- One external site interaction: no document change. -/
def opStep (cfg : Config) (tag : Tag) (st : RState) : RState :=
  step cfg tag id st

/-- Model of `updateSessionLog`: push a `{time, message, type}` entry. -/
def logStep (cfg : Config) (message : String) (ty : LogType) (st : RState) : RState :=
  step cfg (Tag.logW message ty)
    (fun s => { s with logs := s.logs ++ [{ message := message, type := ty }] }) st

/-- Model of `updateSessionError`: one update setting `status: 'error'` and
pushing an `error` log entry. -/
def errorStep (cfg : Config) (message : String) (st : RState) : RState :=
  step cfg (Tag.statusW Status.error)
    (fun s => { s with status := Status.error,
                       logs := s.logs ++ [{ message := message, type := LogType.error }] }) st

/-- Counter increment (`$inc` on `applicationsSubmitted` /
`applicationsSkipped`). -/
def incStep (cfg : Config) (submitted : Bool) (st : RState) : RState :=
  step cfg (Tag.cntW submitted)
    (fun s =>
      if submitted then { s with applicationsSubmitted := s.applicationsSubmitted + 1 }
      else { s with applicationsSkipped := s.applicationsSkipped + 1 }) st

/-- Positional update of `updateJobStatus`: the first array element with
the given `url` gets the new status (Mongo `jobs.$.status`). -/
def setJobStatus : List FoundJob → String → JobStatus → List FoundJob
  | [], _, _ => []
  | j :: js, url, stt =>
      if j.job.url = url then { j with status := stt } :: js
      else j :: setJobStatus js url stt

def jobStatusStep (cfg : Config) (url : String) (stt : JobStatus) (st : RState) : RState :=
  step cfg (Tag.jobW url stt)
    (fun s => { s with jobs := setJobStatus s.jobs url stt }) st

/-- The `isSessionStopped` read: returns the flag seen by the task. -/
def checkStep (cfg : Config) (st : RState) : RState × Bool :=
  let st1 := inject cfg st
  let stopped := isSessionStopped st1.sess
  ({ st1 with clock := st1.clock + 1,
              trace := st1.trace ++ [(Tag.check stopped, st1.sess)] }, stopped)

/-- The de-duplication read of `updateSessionWithJobs`:
`jobListings.filter(job => !existingJobUrls.includes(job.url))`. -/
def newJobsOf (s : Session) (listings : List Listing) : List Listing :=
  listings.filter (fun l => !((s.jobs.map (fun j => j.job.url)).contains l.url))

/-- Function `updateSessionWithJobs` as a pure document transformation: append
the genuinely new listings with status `found`, bump `jobsFound` by
their count, and log a summary — all skipped when nothing is new. -/
def updateSessionWithJobs (s : Session) (listings : List Listing) : Session :=
  let newJobs := newJobsOf s listings
  if 0 < newJobs.length then
    { s with jobs := s.jobs ++ newJobs.map (fun l => { job := l, status := JobStatus.found }),
             jobsFound := s.jobsFound + newJobs.length,
             logs := s.logs ++
               [{ message := "Found " ++ toString newJobs.length ++ " new jobs",
                  type := LogType.info }] }
  else s

/-- Function `updateSessionWithJobs` inside the run: the array/counter update is
one atomic `updateOne`, the summary log a second one. -/
def appendJobsSteps (cfg : Config) (listings : List Listing) (st : RState) : RState :=
  let newJobs := newJobsOf st.sess listings
  if 0 < newJobs.length then
    let st := step cfg (Tag.jobsW newJobs.length)
      (fun s =>
        { s with jobs := s.jobs ++ newJobs.map (fun l => { job := l, status := JobStatus.found }),
                 jobsFound := s.jobsFound + newJobs.length }) st
    logStep cfg ("Found " ++ toString newJobs.length ++ " new jobs") LogType.info st
  else st

def srcName : Source → String
  | Source.linkedin => "LinkedIn"
  | Source.indeed => "Indeed"

def noButtonMsg (src : Source) (l : Listing) : String :=
  match src with
  | Source.linkedin => "Skipped " ++ l.title ++ " at " ++ l.company ++ " - No Easy Apply button"
  | Source.indeed => "Skipped " ++ l.title ++ " at " ++ l.company ++ " - No Apply button"

/-- Body of the apply loop for one scraped listing (both site drivers):
cancellation check, exclusion filter, then the guarded application
attempt with its three outcomes. -/
def processJob (cfg : Config) (src : Source) (l : Listing) (st0 : RState) : RState :=
  if st0.brk then st0 else
  let st := (checkStep cfg st0).1
  if (checkStep cfg st0).2 then { st with brk := true } else
  if isExcluded cfg.excludeCompanies l.company then
    logStep cfg ("Skipping job at excluded company: " ++ l.company) LogType.info st
  else
    let st := logStep cfg ("Attempting to apply for " ++ l.title ++ " at " ++ l.company)
      LogType.info st
    let st := opStep cfg (Tag.applyOp src l) st
    match cfg.applyRes src l with
    | ApplyOutcome.applied =>
        let st := jobStatusStep cfg l.url JobStatus.applied st
        let st := logStep cfg ("Successfully applied to " ++ l.title ++ " at " ++ l.company)
          LogType.success st
        incStep cfg true st
    | ApplyOutcome.noButton =>
        let st := jobStatusStep cfg l.url JobStatus.skipped st
        let st := logStep cfg (noButtonMsg src l) LogType.warning st
        incStep cfg false st
    | ApplyOutcome.err m =>
        let st := jobStatusStep cfg l.url JobStatus.error st
        let st := logStep cfg ("Error applying to " ++ l.title ++ " at " ++ l.company ++ ": " ++ m)
          LogType.error st
        incStep cfg false st

def jobsLoop (cfg : Config) (src : Source) : List Listing → RState → RState
  | [], st => st
  | l :: ls, st => jobsLoop cfg src ls (processJob cfg src l st)

/-- One (title, location) iteration of a site driver: cancellation
check, the scripted search, de-duplicated append, then the apply loop.
A thrown search (`SearchOutcome.err`) is caught by the driver-level
`try`, logged, and aborts the driver (remaining pairs are skipped). -/
def runPair (cfg : Config) (src : Source) (t loc : String) (st0 : RState) : RState :=
  if st0.brk then st0 else
  let st := (checkStep cfg st0).1
  if (checkStep cfg st0).2 then
    { logStep cfg "Session stopped by user" LogType.info st with brk := true }
  else
    let st := logStep cfg ("Searching for " ++ t ++ " in " ++ loc) LogType.info st
    let st := opStep cfg (Tag.searchOp src t loc) st
    match cfg.search src t loc with
    | SearchOutcome.err m =>
        { logStep cfg ("Error in " ++ srcName src ++ " job search: " ++ m) LogType.error st with
          brk := true }
    | SearchOutcome.ok listings =>
        let st := appendJobsSteps cfg listings st
        jobsLoop cfg src listings st

def runPairs (cfg : Config) (src : Source) : List (String × String) → RState → RState
  | [], st => st
  | p :: ps, st => runPairs cfg src ps (runPair cfg src p.1 p.2 st)

/-- Title-outer, location-inner iteration order of both drivers. -/
def pairsOf (cfg : Config) : List (String × String) :=
  cfg.jobTitles.flatMap (fun t => cfg.locations.map (fun l => (t, l)))

/-- One site driver (`searchLinkedInJobs` / `searchIndeedJobs`). -/
def searchSiteJobs (cfg : Config) (src : Source) (st : RState) : RState :=
  let st := { st with brk := false }
  let st := logStep cfg ("Starting " ++ srcName src ++ " job search") LogType.info st
  let st := runPairs cfg src (pairsOf cfg) st
  { st with brk := false }

/-- The background task `startAutoApplyProcess`: progress log, initial
status check, profile precondition, both site drivers, then the
unconditional completion update. -/
def initRState (cfg : Config) : RState :=
  { sess := cfg.initSession, clock := 0, trace := [], brk := false }

def startAutoApplyProcess (cfg : Config) : RState :=
  let stB := logStep cfg "Initializing browser for job search" LogType.info (initRState cfg)
  let st := (checkStep cfg stB).1
  if (checkStep cfg stB).2 then st
  else if cfg.hasProfile = false then
    errorStep cfg "User profile not found. Please complete your profile before auto-applying." st
  else
    let st := searchSiteJobs cfg Source.linkedin st
    let st := searchSiteJobs cfg Source.indeed st
    step cfg (Tag.statusW Status.completed)
      (fun s => { s with status := Status.completed,
                         logs := s.logs ++
                           [{ message := "Auto-apply session completed", type := LogType.info }] }) st

/-- Every state a concurrent `GET /status` poll can observe: the
document as inserted, then the document after each atomic write. -/
def snapshots (cfg : Config) : List Session :=
  cfg.initSession :: (startAutoApplyProcess cfg).trace.map Prod.snd

/-- Is this trace entry an external adapter operation (a scripted search
or a per-listing application attempt)? -/
def isOpTag : Tag → Bool
  | Tag.searchOp _ _ _ => true
  | Tag.applyOp _ _ => true
  | _ => false

def isStopTag : Tag → Bool
  | Tag.stopW => true
  | _ => false

/-- Number of adapter operations in a trace fragment. -/
def opsIn (tr : List Entry) : Nat :=
  (tr.filter (fun e => isOpTag e.1)).length

def hasStopTag (tr : List Entry) : Bool :=
  tr.any (fun e => isStopTag e.1)

/-- The part of the trace strictly after the persisted stop request. -/
def afterStop (tr : List Entry) : List Entry :=
  (tr.dropWhile (fun e => !(isStopTag e.1))).tail

def opsAfterStop (tr : List Entry) : Nat :=
  opsIn (afterStop tr)

/-- Number of per-job status writes for a given URL in a trace. -/
def countJobW (u : String) (tr : List Entry) : Nat :=
  (tr.filter (fun e => match e.1 with
    | Tag.jobW u' _ => u' == u
    | _ => false)).length

/-- Number of application attempts in a trace. -/
def applyOps (tr : List Entry) : Nat :=
  (tr.filter (fun e => match e.1 with
    | Tag.applyOp _ _ => true
    | _ => false)).length

/-! ## HTTP handlers

The three route handlers touched by the claims, as pure functions over a
store of `(document id, session)` pairs.  `new ObjectId(sessionId)`
throwing on a malformed id inside the handler's `try` block is modelled
by the validity test `isValidObjectId` routing to the catch-all 500. -/

def isHexDigit (c : Char) : Bool :=
  c.isDigit || (decide ('a' ≤ c) && decide (c ≤ 'f')) || (decide ('A' ≤ c) && decide (c ≤ 'F'))

/-- A syntactically valid MongoDB ObjectId string: 24 hex characters. -/
def isValidObjectId (s : String) : Bool :=
  (s.length == 24) && s.data.all isHexDigit

/-- Validation `!jobTitles || !jobTitles.length || !locations || !locations.length`,
negated (absent and empty arrays are both falsy). -/
def validStartBody (jobTitles locations : Option (List String)) : Bool :=
  match jobTitles, locations with
  | some (_ :: _), some (_ :: _) => true
  | _, _ => false

inductive StartRes where
  | ok (sessionId : String)
  | badRequest (msg : String)
deriving DecidableEq, Repr

/-- Handler of `POST /auto-apply/start`: validate, insert the fresh session
document, return its id.  (The store insert itself is assumed to
succeed; an absent `excludeCompanies` field behaves like `[]` in the
only place the document field is read.) -/
def startHandler (store : List (String × Session)) (callerId : String)
    (jobTitles locations : Option (List String)) (salaryRange : Option (Int × Int))
    (excludeCompanies : Option (List String)) (includeRemote : Option Bool)
    (newId : String) : StartRes × List (String × Session) :=
  if validStartBody jobTitles locations then
    (StartRes.ok newId,
      store ++ [(newId, freshSession callerId (jobTitles.getD []) (locations.getD [])
        salaryRange (excludeCompanies.getD []) includeRemote)])
  else
    (StartRes.badRequest "Job titles and locations are required", store)

inductive StatusRes where
  | ok (s : Session)
  | badRequest (msg : String)
  | notFound
  | serverError
deriving DecidableEq, Repr

/-- Handler of `GET /auto-apply/status/:sessionId`: an owner-scoped
`findOne` on the session id and the caller id. -/
def statusHandler (store : List (String × Session)) (callerId sessionId : String) : StatusRes :=
  if sessionId = "" then StatusRes.badRequest "Session ID is required"
  else if isValidObjectId sessionId = false then StatusRes.serverError
  else
    match store.find? (fun p => p.1 == sessionId && p.2.userId == callerId) with
    | some p => StatusRes.ok p.2
    | none => StatusRes.notFound

inductive StopRes where
  | ok
  | badRequest (msg : String)
  | serverError
deriving DecidableEq, Repr

/-- The `updateOne` of the stop endpoint: first document matching
`{_id, userId, status: 'running'}` receives the stop update. -/
def updateFirstStopped : List (String × Session) → String → String → List (String × Session)
  | [], _, _ => []
  | p :: ps, sid, uid =>
      if p.1 = sid ∧ p.2.userId = uid ∧ p.2.status = Status.running then
        (p.1, stopUpdate p.2) :: ps
      else p :: updateFirstStopped ps sid uid

/-- Handler of `POST /auto-apply/stop/:sessionId`: conditional update filtered on
`status: 'running'`; `modifiedCount === 0` yields a 400. -/
def stopHandler (store : List (String × Session)) (callerId sessionId : String) :
    StopRes × List (String × Session) :=
  if sessionId = "" then (StopRes.badRequest "Session ID is required", store)
  else if isValidObjectId sessionId = false then (StopRes.serverError, store)
  else if store.any (fun p =>
      decide (p.1 = sessionId ∧ p.2.userId = callerId ∧ p.2.status = Status.running)) then
    (StopRes.ok, updateFirstStopped store sessionId callerId)
  else
    (StopRes.badRequest "Failed to stop auto-apply session or session is not running", store)

/-! ## Concrete run fixtures -/

def searchNone : Source → String → String → SearchOutcome :=
  fun _ _ _ => SearchOutcome.ok []

def applyAlways : Source → Listing → ApplyOutcome :=
  fun _ _ => ApplyOutcome.applied

/-- A run of one title and one location in which a stop request is
persisted at clock 2, i.e. right after the background task has passed
its initial status check. -/
def cfgStopMidRun : Config :=
  { userId := "u1", jobTitles := ["Backend Engineer"], locations := ["Remote"],
    salaryRange := none, excludeCompanies := [], includeRemote := none,
    hasProfile := true, search := searchNone, applyRes := applyAlways, stopAt := some 2 }

def lstBadCorp : Listing :=
  { title := "Backend Engineer", company := "BadCorp", location := "Remote",
    url := "https://li/1", source := Source.linkedin }

def searchOneBad : Source → String → String → SearchOutcome
  | Source.linkedin, _, _ => SearchOutcome.ok [lstBadCorp]
  | Source.indeed, _, _ => SearchOutcome.ok []

/-- A run whose single LinkedIn listing is at an excluded company. -/
def cfgExcluded : Config :=
  { userId := "u1", jobTitles := ["Backend Engineer"], locations := ["Remote"],
    salaryRange := none, excludeCompanies := ["BadCorp"], includeRemote := none,
    hasProfile := true, search := searchOneBad, applyRes := applyAlways, stopAt := none }

def searchErrFirst : Source → String → String → SearchOutcome
  | Source.linkedin, _, l => if l = "L1" then SearchOutcome.err "nav failed" else SearchOutcome.ok []
  | Source.indeed, _, _ => SearchOutcome.ok []

/-- A run with two (title, location) pairs whose first LinkedIn search
throws. -/
def cfgSearchErr : Config :=
  { userId := "u1", jobTitles := ["T"], locations := ["L1", "L2"],
    salaryRange := none, excludeCompanies := [], includeRemote := none,
    hasProfile := true, search := searchErrFirst, applyRes := applyAlways, stopAt := none }

def sessAppend0 : Session := freshSession "u1" ["T"] ["L"] none [] none

def luA : Listing :=
  { title := "a", company := "CA", location := "l", url := "u1", source := Source.linkedin }

def luB : Listing :=
  { title := "b", company := "CB", location := "l", url := "u2", source := Source.indeed }

def luB2 : Listing :=
  { title := "b2", company := "CB2", location := "l", url := "u2", source := Source.indeed }

def lstDup : Listing :=
  { title := "T1", company := "GoodCo", location := "L", url := "udup", source := Source.linkedin }

def searchDup : Source → String → String → SearchOutcome
  | Source.linkedin, _, _ => SearchOutcome.ok [lstDup]
  | Source.indeed, _, _ => SearchOutcome.ok []

/-- A run where both LinkedIn searches return the same listing, so the
apply loop processes the same URL twice. -/
def cfgDupUrl : Config :=
  { userId := "u1", jobTitles := ["T"], locations := ["L1", "L2"],
    salaryRange := none, excludeCompanies := [], includeRemote := none,
    hasProfile := true, search := searchDup, applyRes := applyAlways, stopAt := none }

/-- A run whose owner has no profile document. -/
def cfgNoProfile : Config :=
  { userId := "u1", jobTitles := ["T"], locations := ["L"],
    salaryRange := none, excludeCompanies := [], includeRemote := none,
    hasProfile := false, search := searchNone, applyRes := applyAlways, stopAt := none }

theorem inject_none {cfg : Config} (h : cfg.stopAt = none) (st : RState) :
    inject cfg st = st := by
  simp [inject, h]

/-! ## Claim theorems (first batch) -/

/-- Claim C1, evaluated at the failing input: with a stop request
persisted at clock 2 (mid-run, after the initial status check), the
session document observably reaches the terminal status `stopped`, yet
the run ends with status `completed`: the end-of-loop completion update
overwrites a terminal state, contradicting terminal monotonicity. -/
theorem c1_completion_overwrites_stop :
    Status.stopped ∈ (snapshots cfgStopMidRun).map Session.status ∧
    (startAutoApplyProcess cfgStopMidRun).sess.status = Status.completed := by
  decide

/-- Claim C2 counterexample: in a run whose single listing is at the
excluded company BadCorp, the orchestrator does write the log entry and
never calls apply, but the FoundJob keeps status `found` (not `skipped`)
and `applicationsSkipped` stays 0 — the claim as stated is false. -/
theorem c2_counterexample :
    isExcluded cfgExcluded.excludeCompanies lstBadCorp.company = true ∧
    (startAutoApplyProcess cfgExcluded).sess.jobs =
      [{ job := lstBadCorp, status := JobStatus.found }] ∧
    (startAutoApplyProcess cfgExcluded).sess.applicationsSkipped = 0 ∧
    applyOps (startAutoApplyProcess cfgExcluded).trace = 0 := by
  decide

/-- Claim C3 counterexample: when the LinkedIn search for the first
(title, location) pair throws, the second pair of the same driver is
never searched (no `searchOp` for it occurs), so the orchestrator does
not continue with the next pair of that adapter; it does log an error
entry, continues with the Indeed driver, and completes the session. -/
theorem c3_counterexample :
    cfgSearchErr.search Source.linkedin "T" "L1" = SearchOutcome.err "nav failed" ∧
    Tag.searchOp Source.linkedin "T" "L2" ∉
      (startAutoApplyProcess cfgSearchErr).trace.map Prod.fst ∧
    Tag.searchOp Source.indeed "T" "L1" ∈
      (startAutoApplyProcess cfgSearchErr).trace.map Prod.fst ∧
    ({ message := "Error in LinkedIn job search: nav failed", type := LogType.error } : LogEntry)
      ∈ (startAutoApplyProcess cfgSearchErr).sess.logs ∧
    (startAutoApplyProcess cfgSearchErr).sess.status = Status.completed := by
  decide

/-- Claim C4 counterexample: two `updateSessionWithJobs` calls with
URL-overlapping batches (the second batch contains the url u2 twice)
leave two FoundJob entries with the same external URL, and `jobsFound`
is 3 while only 2 unique URLs were ever appended. -/
theorem c4_counterexample :
    ¬ (((updateSessionWithJobs (updateSessionWithJobs sessAppend0 [luA])
          [luA, luB, luB2]).jobs.map (fun j => j.job.url)).Nodup) ∧
    (updateSessionWithJobs (updateSessionWithJobs sessAppend0 [luA])
        [luA, luB, luB2]).jobsFound = 3 ∧
    (([luA] ++ [luA, luB, luB2]).map (fun l => l.url)).dedup.length = 2 := by
  decide

/-- Claim C5 counterexample: when the same URL is returned by two
searches, the apply loop processes it twice: the final snapshot has
`applicationsSubmitted + applicationsSkipped = 2` but `jobsFound = 1`,
and the FoundJob's status is written twice. -/
theorem c5_counterexample :
    (startAutoApplyProcess cfgDupUrl).sess.applicationsSubmitted +
      (startAutoApplyProcess cfgDupUrl).sess.applicationsSkipped = 2 ∧
    (startAutoApplyProcess cfgDupUrl).sess.jobsFound = 1 ∧
    countJobW "udup" (startAutoApplyProcess cfgDupUrl).trace = 2 := by
  decide

/-- Claim C7: a start request whose jobTitles or locations list is empty
or absent fails with the 400 validation error and creates no session
document; otherwise the handler returns the session id and appends
exactly the fresh `running` session document for the caller. -/
theorem c7_start_validation (store : List (String × Session)) (uid : String)
    (tit loc : Option (List String)) (sal : Option (Int × Int))
    (exc : Option (List String)) (rem : Option Bool) (newId : String) :
    ((tit = none ∨ tit = some [] ∨ loc = none ∨ loc = some []) →
      startHandler store uid tit loc sal exc rem newId =
        (StartRes.badRequest "Job titles and locations are required", store)) ∧
    (∀ t ts l ls, tit = some (t :: ts) → loc = some (l :: ls) →
      startHandler store uid tit loc sal exc rem newId =
        (StartRes.ok newId,
          store ++ [(newId, freshSession uid (t :: ts) (l :: ls) sal (exc.getD []) rem)])) := by
  constructor
  · intro h
    have hv : validStartBody tit loc = false := by
      rcases h with rfl | rfl | rfl | rfl
      · rfl
      · rfl
      · cases tit with
        | none => rfl
        | some xs => cases xs <;> rfl
      · cases tit with
        | none => rfl
        | some xs => cases xs <;> rfl
    simp [startHandler, hv]
  · rintro t ts l ls rfl rfl
    simp [startHandler, validStartBody]

/-- Claim C7 witness: the validation rejects an empty locations list and
accepts a fully populated body, at concrete inputs. -/
theorem c7_start_validation_witness :
    startHandler [] "alice" (some ["T"]) (some []) none none none "id1" =
      (StartRes.badRequest "Job titles and locations are required", []) ∧
    startHandler [] "alice" (some ["T"]) (some ["L"]) none none none "id1" =
      (StartRes.ok "id1",
        [("id1", freshSession "alice" ["T"] ["L"] none [] none)]) := by
  exact ⟨(c7_start_validation [] "alice" (some ["T"]) (some []) none none none "id1").1
      (Or.inr (Or.inr (Or.inr rfl))),
    (c7_start_validation [] "alice" (some ["T"]) (some ["L"]) none none none "id1").2
      "T" [] "L" [] rfl rfl⟩

/-- Claim C9: the status read is owner-scoped.  If every stored document
with the requested id belongs to someone other than the caller (in
particular if no document has that id), the handler returns 404; and
whenever the handler returns a document at all, that document belongs to
the caller. -/
theorem c9_status_owner_scoped (store : List (String × Session)) (caller sid : String) :
    (sid ≠ "" → isValidObjectId sid = true →
      (∀ p ∈ store, p.1 = sid → p.2.userId ≠ caller) →
      statusHandler store caller sid = StatusRes.notFound) ∧
    (∀ doc, statusHandler store caller sid = StatusRes.ok doc → doc.userId = caller) := by
  constructor
  · intro hne hv hown
    have hnone : store.find? (fun p => p.1 == sid && p.2.userId == caller) = none := by
      rw [List.find?_eq_none]
      intro p hp hcontra
      rw [Bool.and_eq_true, beq_iff_eq, beq_iff_eq] at hcontra
      exact hown p hp hcontra.1 hcontra.2
    simp [statusHandler, hne, hv, hnone]
  · intro doc hdoc
    unfold statusHandler at hdoc
    by_cases h1 : sid = ""
    · simp [h1] at hdoc
    · rw [if_neg h1] at hdoc
      by_cases h2 : isValidObjectId sid = false
      · simp [h2] at hdoc
      · rw [if_neg h2] at hdoc
        cases hf : store.find? (fun p => p.1 == sid && p.2.userId == caller) with
        | none => rw [hf] at hdoc; exact absurd hdoc (by simp)
        | some p =>
            rw [hf] at hdoc
            have hpred := List.find?_some hf
            rw [Bool.and_eq_true, beq_iff_eq, beq_iff_eq] at hpred
            have : p.2 = doc := by
              have := hdoc
              simp only [StatusRes.ok.injEq] at this
              exact this
            rw [← this]
            exact hpred.2

/-- Claim C9 witness: a session owned by alice is invisible to bob. -/
theorem c9_status_owner_scoped_witness :
    statusHandler [("0123456789abcdef01234567", freshSession "alice" ["T"] ["L"] none [] none)]
      "bob" "0123456789abcdef01234567" = StatusRes.notFound :=
  (c9_status_owner_scoped
      [("0123456789abcdef01234567", freshSession "alice" ["T"] ["L"] none [] none)]
      "bob" "0123456789abcdef01234567").1 (by decide) (by decide) (by decide)

/-- Claim C10: a non-empty session id that is not a syntactically valid
ObjectId makes both the status and the stop handler answer with the
catch-all 500 server error (the ObjectId constructor throws inside the
try block), with the store left untouched; a well-formed but unknown id
instead yields the 404 of the status handler and the 400 of the stop
handler. -/
theorem c10_malformed_session_id (store : List (String × Session)) (caller sid : String) :
    (sid ≠ "" → isValidObjectId sid = false →
      statusHandler store caller sid = StatusRes.serverError ∧
      stopHandler store caller sid = (StopRes.serverError, store)) ∧
    (isValidObjectId sid = true → (∀ p ∈ store, p.1 ≠ sid) →
      statusHandler store caller sid = StatusRes.notFound ∧
      stopHandler store caller sid =
        (StopRes.badRequest "Failed to stop auto-apply session or session is not running",
          store)) := by
  constructor
  · intro hne hv
    constructor <;> simp [statusHandler, stopHandler, hne, hv]
  · intro hv hnot
    have hne : sid ≠ "" := by
      intro h
      rw [h] at hv
      exact absurd hv (by decide)
    have hnone : store.find? (fun p => p.1 == sid && p.2.userId == caller) = none := by
      rw [List.find?_eq_none]
      intro p hp hcontra
      rw [Bool.and_eq_true, beq_iff_eq, beq_iff_eq] at hcontra
      exact hnot p hp hcontra.1
    have hany : store.any (fun p =>
        decide (p.1 = sid ∧ p.2.userId = caller ∧ p.2.status = Status.running)) = false := by
      rw [List.any_eq_false]
      intro p hp hc
      rw [decide_eq_true_eq] at hc
      exact hnot p hp hc.1
    constructor
    · simp [statusHandler, hne, hv, hnone]
    · simp only [stopHandler, hany, hne, hv]
      simp

/-- Claim C10 witness: a malformed id gets the 500 from both handlers at
a concrete store, and a valid unknown id gets 404 and 400. -/
theorem c10_malformed_session_id_witness :
    (statusHandler [("0123456789abcdef01234567", freshSession "alice" ["T"] ["L"] none [] none)]
        "alice" "not-an-objectid" = StatusRes.serverError ∧
      stopHandler [("0123456789abcdef01234567", freshSession "alice" ["T"] ["L"] none [] none)]
        "alice" "not-an-objectid" =
        (StopRes.serverError,
          [("0123456789abcdef01234567", freshSession "alice" ["T"] ["L"] none [] none)])) ∧
    (statusHandler [("0123456789abcdef01234567", freshSession "alice" ["T"] ["L"] none [] none)]
        "alice" "ffffffffffffffffffffffff" = StatusRes.notFound ∧
      stopHandler [("0123456789abcdef01234567", freshSession "alice" ["T"] ["L"] none [] none)]
        "alice" "ffffffffffffffffffffffff" =
        (StopRes.badRequest "Failed to stop auto-apply session or session is not running",
          [("0123456789abcdef01234567", freshSession "alice" ["T"] ["L"] none [] none)])) :=
  ⟨(c10_malformed_session_id
      [("0123456789abcdef01234567", freshSession "alice" ["T"] ["L"] none [] none)]
      "alice" "not-an-objectid").1 (by decide) (by decide),
    (c10_malformed_session_id
      [("0123456789abcdef01234567", freshSession "alice" ["T"] ["L"] none [] none)]
      "alice" "ffffffffffffffffffffffff").2 (by decide) (by decide)⟩

/-- Claim C8: with no stop request in flight, an absent owner profile
makes the background task set the session to `error` in one atomic
update whose log entry has severity `error` and the missing-profile
message, with no adapter operation ever started; and this is the only
fatal precondition — with a profile present the run always ends
`completed`, never `error`. -/
theorem c8_missing_profile (cfg : Config) (hstop : cfg.stopAt = none) :
    (cfg.hasProfile = false →
      (startAutoApplyProcess cfg).sess.status = Status.error ∧
      ({ message := "User profile not found. Please complete your profile before auto-applying.",
         type := LogType.error } : LogEntry) ∈ (startAutoApplyProcess cfg).sess.logs ∧
      opsIn (startAutoApplyProcess cfg).trace = 0) ∧
    (cfg.hasProfile = true → (startAutoApplyProcess cfg).sess.status = Status.completed) := by
  constructor
  · intro h
    refine ⟨?_, ?_, ?_⟩ <;>
      simp [startAutoApplyProcess, initRState, logStep, errorStep, step, checkStep, inject,
        hstop, isSessionStopped, Config.initSession, freshSession, h, opsIn, isOpTag]
  · intro h
    simp [startAutoApplyProcess, initRState, logStep, step, checkStep, inject, hstop,
      isSessionStopped, Config.initSession, freshSession, h]

/-- Claim C8 witness: the profile-less run errors with the expected log
entry and performs no adapter operation. -/
theorem c8_missing_profile_witness :
    (startAutoApplyProcess cfgNoProfile).sess.status = Status.error ∧
    ({ message := "User profile not found. Please complete your profile before auto-applying.",
       type := LogType.error } : LogEntry) ∈ (startAutoApplyProcess cfgNoProfile).sess.logs ∧
    opsIn (startAutoApplyProcess cfgNoProfile).trace = 0 :=
  (c8_missing_profile cfgNoProfile rfl).1 rfl

/-! ## Claim C4 (amended): de-duplication across appendJobs calls -/

/-- URL list of a session's jobs array. -/
def jurls (s : Session) : List String := s.jobs.map (fun j => j.job.url)

theorem contains_iff_mem {l : List String} {a : String} : l.contains a = true ↔ a ∈ l :=
  List.elem_iff

theorem newJobsOf_urls (s : Session) (b : List Listing) :
    (newJobsOf s b).map (fun l => l.url) =
      (b.map (fun l => l.url)).filter (fun u => !((jurls s).contains u)) := by
  unfold newJobsOf jurls
  rw [List.filter_map]
  rfl

theorem jurls_updateSessionWithJobs (s : Session) (b : List Listing) :
    jurls (updateSessionWithJobs s b) = jurls s ++ (newJobsOf s b).map (fun l => l.url) := by
  simp only [updateSessionWithJobs]
  by_cases h : 0 < (newJobsOf s b).length
  · rw [if_pos h]
    simp [jurls, List.map_map]
  · rw [if_neg h]
    have hz : newJobsOf s b = [] :=
      List.length_eq_zero.mp (Nat.eq_zero_of_not_pos h)
    simp [hz]

theorem jobsFound_updateSessionWithJobs (s : Session) (b : List Listing) :
    (updateSessionWithJobs s b).jobsFound = s.jobsFound + (newJobsOf s b).length := by
  simp only [updateSessionWithJobs]
  by_cases h : 0 < (newJobsOf s b).length
  · rw [if_pos h]
  · rw [if_neg h]
    have hz : newJobsOf s b = [] :=
      List.length_eq_zero.mp (Nat.eq_zero_of_not_pos h)
    simp [hz]

theorem foldl_updateSessionWithJobs_inv (batches : List (List Listing)) (s : Session)
    (hnd : (jurls s).Nodup) (hlen : s.jobsFound = (jurls s).length)
    (hb : ∀ b ∈ batches, (b.map (fun l => l.url)).Nodup) :
    (jurls (batches.foldl updateSessionWithJobs s)).Nodup ∧
    (batches.foldl updateSessionWithJobs s).jobsFound =
      (jurls (batches.foldl updateSessionWithJobs s)).length ∧
    (jurls (batches.foldl updateSessionWithJobs s)).toFinset =
      (jurls s).toFinset ∪ (batches.flatMap (fun b => b.map (fun l => l.url))).toFinset := by
  induction batches generalizing s with
  | nil => simp [hnd, hlen]
  | cons b bs ih =>
      have hbu : (b.map (fun l => l.url)).Nodup := hb b (by simp)
      have hstep : jurls (updateSessionWithJobs s b) =
          jurls s ++ (b.map (fun l => l.url)).filter (fun u => !((jurls s).contains u)) := by
        rw [jurls_updateSessionWithJobs, newJobsOf_urls]
      have hnd' : (jurls (updateSessionWithJobs s b)).Nodup := by
        rw [hstep, List.nodup_append]
        refine ⟨hnd, List.Nodup.sublist (List.filter_sublist _) hbu, ?_⟩
        intro u hu hu'
        have := (List.mem_filter.mp hu').2
        rw [Bool.not_eq_eq_eq_not, Bool.not_true] at this
        exact absurd (contains_iff_mem.mpr hu) (by rw [this]; exact Bool.false_ne_true)
      have hlenf : (newJobsOf s b).length =
          ((b.map (fun l => l.url)).filter (fun u => !((jurls s).contains u))).length := by
        rw [← newJobsOf_urls, List.length_map]
      have hlen' : (updateSessionWithJobs s b).jobsFound =
          (jurls (updateSessionWithJobs s b)).length := by
        rw [jobsFound_updateSessionWithJobs, hstep, List.length_append, hlen, hlenf]
      have hfin : (jurls (updateSessionWithJobs s b)).toFinset =
          (jurls s).toFinset ∪ (b.map (fun l => l.url)).toFinset := by
        rw [hstep, List.toFinset_append]
        ext u
        simp only [Finset.mem_union, List.mem_toFinset, List.mem_filter]
        constructor
        · rintro (h | ⟨h, _⟩)
          · exact Or.inl h
          · exact Or.inr h
        · rintro (h | h)
          · exact Or.inl h
          · by_cases hc : u ∈ jurls s
            · exact Or.inl hc
            · refine Or.inr ⟨h, ?_⟩
              rw [Bool.not_eq_eq_eq_not, Bool.not_true]
              rw [← Bool.not_eq_true]
              intro hcc
              exact hc (contains_iff_mem.mp hcc)
      obtain ⟨h1, h2, h3⟩ := ih (updateSessionWithJobs s b) hnd' hlen'
        (fun x hx => hb x (by simp [hx]))
      refine ⟨h1, h2, ?_⟩
      rw [List.foldl_cons, h3, hfin, List.flatMap_cons, List.toFinset_append,
        Finset.union_assoc]

/-- Claim C4 (amended): starting from a freshly created session, any
sequence of `updateSessionWithJobs` calls whose individual batches have
pairwise-distinct URLs (overlapping across calls is fine) leaves no two
FoundJob entries with the same external URL, keeps `jobsFound` equal to
the length of the jobs array, and makes `jobsFound` the number of unique
URLs ever appended. -/
theorem c4_dedup_amended (s : Session) (hs : s.jobs = []) (hf : s.jobsFound = 0)
    (batches : List (List Listing))
    (hb : ∀ b ∈ batches, (b.map (fun l => l.url)).Nodup) :
    ((batches.foldl updateSessionWithJobs s).jobs.map (fun j => j.job.url)).Nodup ∧
    (batches.foldl updateSessionWithJobs s).jobsFound =
      (batches.foldl updateSessionWithJobs s).jobs.length ∧
    (batches.foldl updateSessionWithJobs s).jobsFound =
      ((batches.flatMap (fun b => b.map (fun l => l.url))).toFinset).card := by
  have h0 : jurls s = [] := by simp [jurls, hs]
  obtain ⟨h1, h2, h3⟩ := foldl_updateSessionWithJobs_inv batches s
    (by rw [h0]; exact List.nodup_nil) (by rw [h0, hf]; rfl) hb
  refine ⟨h1, ?_, ?_⟩
  · rw [h2]
    simp [jurls]
  · rw [h2, ← List.toFinset_card_of_nodup h1]
    show (jurls _).toFinset.card = _
    rw [h3, h0]
    simp

/-- Claim C4 (amended) witness: two overlapping duplicate-free batches
at concrete values. -/
theorem c4_dedup_amended_witness :
    (([[luA], [luA, luB]] : List (List Listing)).foldl
        updateSessionWithJobs sessAppend0).jobsFound =
      ((([[luA], [luA, luB]] : List (List Listing)).flatMap
        (fun b => b.map (fun l => l.url))).toFinset).card ∧
    ((([[luA], [luA, luB]] : List (List Listing)).foldl
        updateSessionWithJobs sessAppend0).jobs.map (fun j => j.job.url)).Nodup :=
  ⟨(c4_dedup_amended sessAppend0 rfl rfl [[luA], [luA, luB]] (by decide)).2.2,
    (c4_dedup_amended sessAppend0 rfl rfl [[luA], [luA, luB]] (by decide)).1⟩

/-! ## Generic run lemmas: injection cases and monotone growth -/

theorem inject_cases (cfg : Config) (st : RState) :
    inject cfg st = st ∨
    inject cfg st = { st with sess := stopUpdate st.sess,
                              trace := st.trace ++ [(Tag.stopW, stopUpdate st.sess)] } := by
  unfold inject
  split
  · exact Or.inl rfl
  · split
    · exact Or.inr rfl
    · exact Or.inl rfl

theorem stopUpdate_logs_mono (s : Session) : ∀ x ∈ s.logs, x ∈ (stopUpdate s).logs := by
  intro x hx
  unfold stopUpdate
  by_cases h : s.status = Status.running
  · rw [if_pos h]
    exact List.mem_append_left _ hx
  · rw [if_neg h]
    exact hx

theorem stopUpdate_counters (s : Session) :
    (stopUpdate s).applicationsSubmitted = s.applicationsSubmitted ∧
    (stopUpdate s).applicationsSkipped = s.applicationsSkipped ∧
    (stopUpdate s).jobsFound = s.jobsFound ∧ (stopUpdate s).jobs = s.jobs := by
  unfold stopUpdate
  by_cases h : s.status = Status.running
  · rw [if_pos h]
    exact ⟨rfl, rfl, rfl, rfl⟩
  · rw [if_neg h]
    exact ⟨rfl, rfl, rfl, rfl⟩

/-- Monotone-growth relation between run states: the trace and the log
array only grow, and (in runs without a concurrent stop request) the
status is untouched by the loop machinery. -/
def StepsMono (cfg : Config) (st st' : RState) : Prop :=
  (∀ e ∈ st.trace, e ∈ st'.trace) ∧
  (∀ x ∈ st.sess.logs, x ∈ st'.sess.logs) ∧
  (cfg.stopAt = none → st'.sess.status = st.sess.status)

theorem StepsMono.refl (cfg : Config) (st : RState) : StepsMono cfg st st :=
  ⟨fun _ h => h, fun _ h => h, fun _ => rfl⟩

theorem StepsMono.trans {cfg : Config} {s1 s2 s3 : RState}
    (h1 : StepsMono cfg s1 s2) (h2 : StepsMono cfg s2 s3) : StepsMono cfg s1 s3 :=
  ⟨fun e he => h2.1 e (h1.1 e he), fun x hx => h2.2.1 x (h1.2.1 x hx),
    fun hn => (h2.2.2 hn).trans (h1.2.2 hn)⟩

theorem StepsMono.withBrk {cfg : Config} {st st' : RState}
    (h : StepsMono cfg st st') (b : Bool) : StepsMono cfg st { st' with brk := b } := h

theorem StepsMono.toBrk (cfg : Config) (st : RState) (b : Bool) :
    StepsMono cfg st { st with brk := b } :=
  ⟨fun _ h => h, fun _ h => h, fun _ => rfl⟩

theorem stepsMono_inject (cfg : Config) (st : RState) : StepsMono cfg st (inject cfg st) := by
  refine ⟨?_, ?_, ?_⟩
  · intro e he
    rcases inject_cases cfg st with h | h <;> rw [h]
    · exact he
    · exact List.mem_append_left _ he
  · intro x hx
    rcases inject_cases cfg st with h | h <;> rw [h]
    · exact hx
    · exact stopUpdate_logs_mono _ x hx
  · intro hn
    rw [inject_none hn]

theorem stepsMono_step (cfg : Config) (tag : Tag) (f : Session → Session) (st : RState)
    (hlog : ∀ s : Session, ∀ x ∈ s.logs, x ∈ (f s).logs)
    (hstatus : ∀ s : Session, (f s).status = s.status) :
    StepsMono cfg st (step cfg tag f st) := by
  refine StepsMono.trans (stepsMono_inject cfg st) ⟨?_, ?_, ?_⟩
  · intro e he
    exact List.mem_append_left _ he
  · intro x hx
    exact hlog _ x hx
  · intro _
    exact hstatus _

theorem stepsMono_checkStep (cfg : Config) (st : RState) :
    StepsMono cfg st (checkStep cfg st).1 := by
  refine StepsMono.trans (stepsMono_inject cfg st) ⟨?_, fun x hx => hx, fun _ => rfl⟩
  intro e he
  exact List.mem_append_left _ he

theorem stepsMono_logStep (cfg : Config) (m : String) (ty : LogType) (st : RState) :
    StepsMono cfg st (logStep cfg m ty st) :=
  stepsMono_step cfg _ _ st (fun _ x hx => List.mem_append_left _ hx) (fun _ => rfl)

theorem stepsMono_opStep (cfg : Config) (tag : Tag) (st : RState) :
    StepsMono cfg st (opStep cfg tag st) :=
  stepsMono_step cfg _ _ st (fun _ _ hx => hx) (fun _ => rfl)

theorem stepsMono_incStep (cfg : Config) (b : Bool) (st : RState) :
    StepsMono cfg st (incStep cfg b st) := by
  refine stepsMono_step cfg _ _ st (fun s x hx => ?_) (fun s => ?_)
  · cases b <;> simpa using hx
  · cases b <;> rfl

theorem stepsMono_jobStatusStep (cfg : Config) (u : String) (jst : JobStatus) (st : RState) :
    StepsMono cfg st (jobStatusStep cfg u jst st) :=
  stepsMono_step cfg _ _ st (fun _ _ hx => hx) (fun _ => rfl)

theorem stepsMono_appendJobsSteps (cfg : Config) (ls : List Listing) (st : RState) :
    StepsMono cfg st (appendJobsSteps cfg ls st) := by
  simp only [appendJobsSteps]
  split
  · refine StepsMono.trans ?_ (stepsMono_logStep cfg _ _ _)
    exact stepsMono_step cfg _ _ st (fun _ _ hx => hx) (fun _ => rfl)
  · exact StepsMono.refl cfg st

theorem stepsMono_processJob (cfg : Config) (src : Source) (l : Listing) (st : RState) :
    StepsMono cfg st (processJob cfg src l st) := by
  simp only [processJob]
  split
  · exact StepsMono.refl cfg st
  · split
    · exact (stepsMono_checkStep cfg st).withBrk true
    · split
      · exact StepsMono.trans (stepsMono_checkStep cfg st) (stepsMono_logStep cfg _ _ _)
      · split <;>
        · refine StepsMono.trans ?_ (stepsMono_incStep cfg _ _)
          refine StepsMono.trans ?_ (stepsMono_logStep cfg _ _ _)
          refine StepsMono.trans ?_ (stepsMono_jobStatusStep cfg _ _ _)
          refine StepsMono.trans ?_ (stepsMono_opStep cfg _ _)
          refine StepsMono.trans ?_ (stepsMono_logStep cfg _ _ _)
          exact stepsMono_checkStep cfg st

theorem stepsMono_jobsLoop (cfg : Config) (src : Source) (ls : List Listing) (st : RState) :
    StepsMono cfg st (jobsLoop cfg src ls st) := by
  induction ls generalizing st with
  | nil => exact StepsMono.refl cfg st
  | cons l ls ih =>
      exact StepsMono.trans (stepsMono_processJob cfg src l st) (ih _)

theorem stepsMono_runPair (cfg : Config) (src : Source) (t loc : String) (st : RState) :
    StepsMono cfg st (runPair cfg src t loc st) := by
  simp only [runPair]
  split
  · exact StepsMono.refl cfg st
  · split
    · exact ((stepsMono_checkStep cfg st).trans (stepsMono_logStep cfg _ _ _)).withBrk true
    · split
      · refine StepsMono.withBrk ?_ true
        refine StepsMono.trans ?_ (stepsMono_logStep cfg _ _ _)
        refine StepsMono.trans ?_ (stepsMono_opStep cfg _ _)
        refine StepsMono.trans ?_ (stepsMono_logStep cfg _ _ _)
        exact stepsMono_checkStep cfg st
      · refine StepsMono.trans ?_ (stepsMono_jobsLoop cfg src _ _)
        refine StepsMono.trans ?_ (stepsMono_appendJobsSteps cfg _ _)
        refine StepsMono.trans ?_ (stepsMono_opStep cfg _ _)
        refine StepsMono.trans ?_ (stepsMono_logStep cfg _ _ _)
        exact stepsMono_checkStep cfg st

theorem stepsMono_runPairs (cfg : Config) (src : Source) (ps : List (String × String))
    (st : RState) : StepsMono cfg st (runPairs cfg src ps st) := by
  induction ps generalizing st with
  | nil => exact StepsMono.refl cfg st
  | cons p ps ih =>
      exact StepsMono.trans (stepsMono_runPair cfg src p.1 p.2 st) (ih _)

theorem stepsMono_searchSiteJobs (cfg : Config) (src : Source) (st : RState) :
    StepsMono cfg st (searchSiteJobs cfg src st) := by
  simp only [searchSiteJobs]
  refine StepsMono.withBrk ?_ false
  refine StepsMono.trans ?_ (stepsMono_runPairs cfg src _ _)
  refine StepsMono.trans ?_ (stepsMono_logStep cfg _ _ _)
  exact StepsMono.toBrk cfg st false

/-! ## Flow lemmas for stop-free runs -/

/-- The batch a driver scrapes for one pair (empty when the search
throws). -/
def batchOf (cfg : Config) (src : Source) (t loc : String) : List Listing :=
  match cfg.search src t loc with
  | SearchOutcome.ok ls => ls
  | SearchOutcome.err _ => []

theorem step_brk (cfg : Config) (tag : Tag) (f : Session → Session) (st : RState) :
    (step cfg tag f st).brk = st.brk := by
  rcases inject_cases cfg st with h | h <;> simp [step, h]

theorem checkStep_brk (cfg : Config) (st : RState) :
    (checkStep cfg st).1.brk = st.brk := by
  rcases inject_cases cfg st with h | h <;> simp [checkStep, h]

theorem checkStep_none {cfg : Config} (hn : cfg.stopAt = none) (st : RState) :
    (checkStep cfg st).1.sess = st.sess ∧
    (checkStep cfg st).2 = isSessionStopped st.sess := by
  constructor <;> simp [checkStep, inject_none hn]

theorem logStep_sess_none {cfg : Config} (hn : cfg.stopAt = none) (m : String) (ty : LogType)
    (st : RState) :
    (logStep cfg m ty st).sess =
      { st.sess with logs := st.sess.logs ++ [{ message := m, type := ty }] } := by
  simp [logStep, step, inject_none hn]

theorem appendJobsSteps_brk (cfg : Config) (ls : List Listing) (st : RState) :
    (appendJobsSteps cfg ls st).brk = st.brk := by
  simp only [appendJobsSteps]
  split
  · simp [logStep, step_brk]
  · rfl

theorem processJob_flow {cfg : Config} (hn : cfg.stopAt = none) (src : Source) (l : Listing)
    (st : RState) (hrun : st.sess.status = Status.running) :
    (processJob cfg src l st).sess.status = Status.running ∧
    (processJob cfg src l st).brk = st.brk := by
  refine ⟨by rw [(stepsMono_processJob cfg src l st).2.2 hn, hrun], ?_⟩
  simp only [processJob]
  split
  · rfl
  · split
    · rename_i hc
      rw [(checkStep_none hn st).2, isSessionStopped, hrun] at hc
      exact absurd hc (by simp)
    · split
      · simp [logStep, step_brk, checkStep_brk]
      · split <;>
          simp [incStep, logStep, jobStatusStep, opStep, step_brk, checkStep_brk]

theorem jobsLoop_flow {cfg : Config} (hn : cfg.stopAt = none) (src : Source)
    (ls : List Listing) (st : RState) (hrun : st.sess.status = Status.running) :
    (jobsLoop cfg src ls st).sess.status = Status.running ∧
    (jobsLoop cfg src ls st).brk = st.brk := by
  induction ls generalizing st with
  | nil => exact ⟨hrun, rfl⟩
  | cons l ls ih =>
      obtain ⟨h1, h2⟩ := processJob_flow hn src l st hrun
      obtain ⟨h3, h4⟩ := ih (processJob cfg src l st) h1
      refine ⟨h3, ?_⟩
      show (jobsLoop cfg src ls (processJob cfg src l st)).brk = st.brk
      rw [h4, h2]

theorem runPair_flow {cfg : Config} (hn : cfg.stopAt = none) (src : Source) (t loc : String)
    (st : RState) (hok : ∀ m, cfg.search src t loc ≠ SearchOutcome.err m)
    (hrun : st.sess.status = Status.running) :
    (runPair cfg src t loc st).sess.status = Status.running ∧
    (runPair cfg src t loc st).brk = st.brk := by
  refine ⟨by rw [(stepsMono_runPair cfg src t loc st).2.2 hn, hrun], ?_⟩
  simp only [runPair]
  split
  · rfl
  · split
    · rename_i hc
      rw [(checkStep_none hn st).2, isSessionStopped, hrun] at hc
      exact absurd hc (by simp)
    · split
      · rename_i m hs
        exact absurd hs (hok m)
      · rename_i ls hs
        have hrun2 : (appendJobsSteps cfg ls
            (opStep cfg (Tag.searchOp src t loc)
              (logStep cfg ("Searching for " ++ t ++ " in " ++ loc) LogType.info
                (checkStep cfg st).1))).sess.status = Status.running := by
          rw [(stepsMono_appendJobsSteps cfg ls _).2.2 hn,
            (stepsMono_opStep cfg _ _).2.2 hn, (stepsMono_logStep cfg _ _ _).2.2 hn,
            (stepsMono_checkStep cfg st).2.2 hn, hrun]
        rw [(jobsLoop_flow hn src ls _ hrun2).2, appendJobsSteps_brk,
          opStep, step_brk, logStep, step_brk, checkStep_brk]

theorem runPairs_flow {cfg : Config} (hn : cfg.stopAt = none) (src : Source)
    (ps : List (String × String)) (st : RState)
    (hok : ∀ t loc m, cfg.search src t loc ≠ SearchOutcome.err m)
    (hrun : st.sess.status = Status.running) :
    (runPairs cfg src ps st).sess.status = Status.running ∧
    (runPairs cfg src ps st).brk = st.brk := by
  induction ps generalizing st with
  | nil => exact ⟨hrun, rfl⟩
  | cons p ps ih =>
      obtain ⟨h1, h2⟩ := runPair_flow hn src p.1 p.2 st (hok p.1 p.2) hrun
      obtain ⟨h3, h4⟩ := ih (runPair cfg src p.1 p.2 st) h1
      refine ⟨h3, ?_⟩
      show (runPairs cfg src ps (runPair cfg src p.1 p.2 st)).brk = st.brk
      rw [h4, h2]

theorem searchSiteJobs_status {cfg : Config} (hn : cfg.stopAt = none) (src : Source)
    (st : RState) :
    (searchSiteJobs cfg src st).sess.status = st.sess.status ∧
    (searchSiteJobs cfg src st).brk = false := by
  exact ⟨(stepsMono_searchSiteJobs cfg src st).2.2 hn, rfl⟩

/-! ## Claim C2 (amended): exclusion filter -/

def skipLogEntry (company : String) : LogEntry :=
  { message := "Skipping job at excluded company: " ++ company, type := LogType.info }

theorem step_logs_mono (cfg : Config) (tag : Tag) (f : Session → Session) (st : RState)
    (hlog : ∀ s : Session, ∀ x ∈ Session.logs s, x ∈ (f s).logs) :
    ∀ x ∈ st.sess.logs, x ∈ (step cfg tag f st).sess.logs := by
  intro x hx
  simp only [step]
  exact hlog _ x ((stepsMono_inject cfg st).2.1 x hx)

theorem processJob_skip_log {cfg : Config} (hn : cfg.stopAt = none) (src : Source) (l : Listing)
    (st : RState) (hrun : st.sess.status = Status.running) (hbrk : st.brk = false)
    (hex : isExcluded cfg.excludeCompanies l.company = true) :
    skipLogEntry l.company ∈ (processJob cfg src l st).sess.logs := by
  simp only [processJob]
  split
  · rename_i hb
    rw [hbrk] at hb
    exact absurd hb (by simp)
  · split
    · rename_i hc
      rw [(checkStep_none hn st).2, isSessionStopped, hrun] at hc
      exact absurd hc (by simp)
    · rw [logStep_sess_none hn]
      simp [skipLogEntry]

theorem jobsLoop_skip_log {cfg : Config} (hn : cfg.stopAt = none) (src : Source)
    (ls : List Listing) (st : RState) (hrun : st.sess.status = Status.running)
    (hbrk : st.brk = false) (l : Listing) (hl : l ∈ ls)
    (hex : isExcluded cfg.excludeCompanies l.company = true) :
    skipLogEntry l.company ∈ (jobsLoop cfg src ls st).sess.logs := by
  induction ls generalizing st with
  | nil => cases hl
  | cons a as ih =>
      rcases List.mem_cons.mp hl with rfl | hl2
      · exact (stepsMono_jobsLoop cfg src as (processJob cfg src l st)).2.1 _
          (processJob_skip_log hn src l st hrun hbrk hex)
      · obtain ⟨h1, h2⟩ := processJob_flow hn src a st hrun
        exact ih (processJob cfg src a st) h1 (by rw [h2, hbrk]) hl2

theorem runPair_skip_log {cfg : Config} (hn : cfg.stopAt = none) (src : Source) (t loc : String)
    (st : RState) (hok : ∀ m, cfg.search src t loc ≠ SearchOutcome.err m)
    (hrun : st.sess.status = Status.running) (hbrk : st.brk = false)
    (l : Listing) (hl : l ∈ batchOf cfg src t loc)
    (hex : isExcluded cfg.excludeCompanies l.company = true) :
    skipLogEntry l.company ∈ (runPair cfg src t loc st).sess.logs := by
  simp only [runPair]
  split
  · rename_i hb
    rw [hbrk] at hb
    exact absurd hb (by simp)
  · split
    · rename_i hc
      rw [(checkStep_none hn st).2, isSessionStopped, hrun] at hc
      exact absurd hc (by simp)
    · split
      · rename_i m hs
        exact absurd hs (hok m)
      · rename_i ls hs
        have hls : l ∈ ls := by
          rw [batchOf, hs] at hl
          exact hl
        have hrun2 : (appendJobsSteps cfg ls
            (opStep cfg (Tag.searchOp src t loc)
              (logStep cfg ("Searching for " ++ t ++ " in " ++ loc) LogType.info
                (checkStep cfg st).1))).sess.status = Status.running := by
          rw [(stepsMono_appendJobsSteps cfg ls _).2.2 hn,
            (stepsMono_opStep cfg _ _).2.2 hn, (stepsMono_logStep cfg _ _ _).2.2 hn,
            (stepsMono_checkStep cfg st).2.2 hn, hrun]
        have hbrk2 : (appendJobsSteps cfg ls
            (opStep cfg (Tag.searchOp src t loc)
              (logStep cfg ("Searching for " ++ t ++ " in " ++ loc) LogType.info
                (checkStep cfg st).1))).brk = false := by
          rw [appendJobsSteps_brk, opStep, step_brk, logStep, step_brk, checkStep_brk, hbrk]
        exact jobsLoop_skip_log hn src ls _ hrun2 hbrk2 l hls hex

theorem runPairs_skip_log {cfg : Config} (hn : cfg.stopAt = none) (src : Source)
    (ps : List (String × String)) (st : RState)
    (hok : ∀ t loc m, cfg.search src t loc ≠ SearchOutcome.err m)
    (hrun : st.sess.status = Status.running) (hbrk : st.brk = false)
    (t loc : String) (hp : (t, loc) ∈ ps) (l : Listing) (hl : l ∈ batchOf cfg src t loc)
    (hex : isExcluded cfg.excludeCompanies l.company = true) :
    skipLogEntry l.company ∈ (runPairs cfg src ps st).sess.logs := by
  induction ps generalizing st with
  | nil => cases hp
  | cons p ps ih =>
      rcases List.mem_cons.mp hp with heq | hp2
      · rw [← heq]
        exact (stepsMono_runPairs cfg src ps _).2.1 _
          (runPair_skip_log hn src t loc st (hok t loc) hrun hbrk l hl hex)
      · obtain ⟨h1, h2⟩ := runPair_flow hn src p.1 p.2 st (hok p.1 p.2) hrun
        exact ih _ h1 (by rw [h2, hbrk]) hp2

theorem searchSiteJobs_skip_log {cfg : Config} (hn : cfg.stopAt = none) (src : Source)
    (st : RState) (hok : ∀ t loc m, cfg.search src t loc ≠ SearchOutcome.err m)
    (hrun : st.sess.status = Status.running)
    (t loc : String) (hp : (t, loc) ∈ pairsOf cfg) (l : Listing)
    (hl : l ∈ batchOf cfg src t loc)
    (hex : isExcluded cfg.excludeCompanies l.company = true) :
    skipLogEntry l.company ∈ (searchSiteJobs cfg src st).sess.logs := by
  simp only [searchSiteJobs]
  show skipLogEntry l.company ∈ (runPairs cfg src (pairsOf cfg)
    (logStep cfg ("Starting " ++ srcName src ++ " job search") LogType.info
      { st with brk := false })).sess.logs
  refine runPairs_skip_log hn src (pairsOf cfg) _ hok ?_ ?_ t loc hp l hl hex
  · rw [(stepsMono_logStep cfg _ _ _).2.2 hn]
    exact hrun
  · rw [logStep, step_brk]

theorem mem_step_trace {cfg : Config} {tag : Tag} {f : Session → Session} {st : RState}
    {e : Entry} (he : e ∈ (step cfg tag f st).trace) :
    e ∈ st.trace ∨ e.1 = tag ∨ e.1 = Tag.stopW := by
  simp only [step] at he
  rcases List.mem_append.mp he with h | h
  · rcases inject_cases cfg st with hi | hi
    · rw [hi] at h
      exact Or.inl h
    · rw [hi] at h
      rcases List.mem_append.mp h with h2 | h2
      · exact Or.inl h2
      · rw [List.mem_singleton] at h2
        right; right
        rw [h2]
  · rw [List.mem_singleton] at h
    right; left
    rw [h]

theorem mem_checkStep_trace {cfg : Config} {st : RState} {e : Entry}
    (he : e ∈ (checkStep cfg st).1.trace) :
    e ∈ st.trace ∨ (∃ b, e.1 = Tag.check b) ∨ e.1 = Tag.stopW := by
  simp only [checkStep] at he
  rcases List.mem_append.mp he with h | h
  · rcases inject_cases cfg st with hi | hi
    · rw [hi] at h
      exact Or.inl h
    · rw [hi] at h
      rcases List.mem_append.mp h with h2 | h2
      · exact Or.inl h2
      · rw [List.mem_singleton] at h2
        right; right
        rw [h2]
  · rw [List.mem_singleton] at h
    right; left
    exact ⟨_, by rw [h]⟩

/-- New trace entries of a sub-computation all satisfy the predicate. -/
def NewSat (P : Tag → Prop) (st st' : RState) : Prop :=
  ∀ e ∈ st'.trace, e ∈ st.trace ∨ P e.1

theorem newSat_refl (P : Tag → Prop) (st : RState) : NewSat P st st :=
  fun _ h => Or.inl h

theorem newSat_trans {P : Tag → Prop} {s1 s2 s3 : RState}
    (h1 : NewSat P s1 s2) (h2 : NewSat P s2 s3) : NewSat P s1 s3 :=
  fun e he => (h2 e he).elim (fun h => h1 e h) Or.inr

theorem newSat_step {cfg : Config} {tag : Tag} {f : Session → Session} {st : RState}
    {P : Tag → Prop} (hp : P tag) (hs : P Tag.stopW) :
    NewSat P st (step cfg tag f st) := fun e he => by
  rcases mem_step_trace he with h | h | h
  · exact Or.inl h
  · exact Or.inr (by rw [h]; exact hp)
  · exact Or.inr (by rw [h]; exact hs)

theorem newSat_checkStep {cfg : Config} {st : RState} {P : Tag → Prop}
    (hc : ∀ b, P (Tag.check b)) (hs : P Tag.stopW) :
    NewSat P st (checkStep cfg st).1 := fun e he => by
  rcases mem_checkStep_trace he with h | ⟨b, h⟩ | h
  · exact Or.inl h
  · exact Or.inr (by rw [h]; exact hc b)
  · exact Or.inr (by rw [h]; exact hs)

/-- An entry tag never names an application attempt at an excluded
company. -/
def applySafe (cfg : Config) (tg : Tag) : Prop :=
  ∀ src lst, tg = Tag.applyOp src lst → isExcluded cfg.excludeCompanies lst.company = false

theorem newSat_withBrk {P : Tag → Prop} {s1 s2 : RState} (h : NewSat P s1 s2) (b : Bool) :
    NewSat P s1 { s2 with brk := b } := h

theorem newSat_processJob (cfg : Config) (src : Source) (l : Listing) (st : RState) :
    NewSat (applySafe cfg) st (processJob cfg src l st) := by
  have hstop : applySafe cfg Tag.stopW := fun _ _ h => nomatch h
  have hchk : ∀ b, applySafe cfg (Tag.check b) := fun _ _ _ h => nomatch h
  have hlogW : ∀ m ty, applySafe cfg (Tag.logW m ty) := fun _ _ _ _ h => nomatch h
  have hjobW : ∀ u j, applySafe cfg (Tag.jobW u j) := fun _ _ _ _ h => nomatch h
  have hcnt : ∀ b, applySafe cfg (Tag.cntW b) := fun _ _ _ h => nomatch h
  simp only [processJob]
  split
  · exact newSat_refl _ _
  · split
    · exact newSat_withBrk (newSat_checkStep hchk hstop) true
    · split
      · refine newSat_trans ?_ (newSat_step (hlogW _ _) hstop)
        exact newSat_checkStep hchk hstop
      · rename_i hexf
        have hsafe : applySafe cfg (Tag.applyOp src l) := by
          intro s1 l1 he
          cases he
          cases hb : isExcluded cfg.excludeCompanies l.company
          · rfl
          · exact absurd hb hexf
        split <;>
        · refine newSat_trans ?_ (newSat_step (hcnt _) hstop)
          refine newSat_trans ?_ (newSat_step (hlogW _ _) hstop)
          refine newSat_trans ?_ (newSat_step (hjobW _ _) hstop)
          refine newSat_trans ?_ (newSat_step hsafe hstop)
          refine newSat_trans ?_ (newSat_step (hlogW _ _) hstop)
          exact newSat_checkStep hchk hstop

theorem newSat_jobsLoop (cfg : Config) (src : Source) (ls : List Listing) (st : RState) :
    NewSat (applySafe cfg) st (jobsLoop cfg src ls st) := by
  induction ls generalizing st with
  | nil => exact newSat_refl _ _
  | cons l ls ih =>
      exact newSat_trans (newSat_processJob cfg src l st) (ih _)

theorem newSat_appendJobsSteps (cfg : Config) (ls : List Listing) (st : RState) :
    NewSat (applySafe cfg) st (appendJobsSteps cfg ls st) := by
  have hstop : applySafe cfg Tag.stopW := fun _ _ h => nomatch h
  have hlogW : ∀ m ty, applySafe cfg (Tag.logW m ty) := fun _ _ _ _ h => nomatch h
  have hjobs : ∀ n, applySafe cfg (Tag.jobsW n) := fun _ _ _ h => nomatch h
  simp only [appendJobsSteps]
  split
  · refine newSat_trans ?_ (newSat_step (hlogW _ _) hstop)
    exact newSat_step (hjobs _) hstop
  · exact newSat_refl _ _

theorem newSat_runPair (cfg : Config) (src : Source) (t loc : String) (st : RState) :
    NewSat (applySafe cfg) st (runPair cfg src t loc st) := by
  have hstop : applySafe cfg Tag.stopW := fun _ _ h => nomatch h
  have hchk : ∀ b, applySafe cfg (Tag.check b) := fun _ _ _ h => nomatch h
  have hlogW : ∀ m ty, applySafe cfg (Tag.logW m ty) := fun _ _ _ _ h => nomatch h
  have hsrch : ∀ a b c, applySafe cfg (Tag.searchOp a b c) := fun _ _ _ _ _ h => nomatch h
  simp only [runPair]
  split
  · exact newSat_refl _ _
  · split
    · refine newSat_withBrk ?_ true
      refine newSat_trans ?_ (newSat_step (hlogW _ _) hstop)
      exact newSat_checkStep hchk hstop
    · split
      · refine newSat_withBrk ?_ true
        refine newSat_trans ?_ (newSat_step (hlogW _ _) hstop)
        refine newSat_trans ?_ (newSat_step (hsrch _ _ _) hstop)
        refine newSat_trans ?_ (newSat_step (hlogW _ _) hstop)
        exact newSat_checkStep hchk hstop
      · refine newSat_trans ?_ (newSat_jobsLoop cfg src _ _)
        refine newSat_trans ?_ (newSat_appendJobsSteps cfg _ _)
        refine newSat_trans ?_ (newSat_step (hsrch _ _ _) hstop)
        refine newSat_trans ?_ (newSat_step (hlogW _ _) hstop)
        exact newSat_checkStep hchk hstop

theorem newSat_runPairs (cfg : Config) (src : Source) (ps : List (String × String))
    (st : RState) : NewSat (applySafe cfg) st (runPairs cfg src ps st) := by
  induction ps generalizing st with
  | nil => exact newSat_refl _ _
  | cons p ps ih =>
      exact newSat_trans (newSat_runPair cfg src p.1 p.2 st) (ih _)

theorem newSat_searchSiteJobs (cfg : Config) (src : Source) (st : RState) :
    NewSat (applySafe cfg) st (searchSiteJobs cfg src st) := by
  have hstop : applySafe cfg Tag.stopW := fun _ _ h => nomatch h
  have hlogW : ∀ m ty, applySafe cfg (Tag.logW m ty) := fun _ _ _ _ h => nomatch h
  simp only [searchSiteJobs]
  refine newSat_withBrk ?_ false
  refine newSat_trans ?_ (newSat_runPairs cfg src _ _)
  have hbase : NewSat (applySafe cfg) st { st with brk := false } := fun e he => Or.inl he
  exact newSat_trans hbase (newSat_step (hlogW _ _) hstop)

theorem run_applySafe (cfg : Config) :
    ∀ e ∈ (startAutoApplyProcess cfg).trace, applySafe cfg e.1 := by
  have hstop : applySafe cfg Tag.stopW := fun _ _ h => nomatch h
  have hchk : ∀ b, applySafe cfg (Tag.check b) := fun _ _ _ h => nomatch h
  have hlogW : ∀ m ty, applySafe cfg (Tag.logW m ty) := fun _ _ _ _ h => nomatch h
  have hstatusW : ∀ s, applySafe cfg (Tag.statusW s) := fun _ _ _ h => nomatch h
  intro e he
  have h : NewSat (applySafe cfg) (initRState cfg) (startAutoApplyProcess cfg) := by
    simp only [startAutoApplyProcess]
    split
    · refine newSat_trans ?_ (newSat_checkStep hchk hstop)
      exact newSat_step (hlogW _ _) hstop
    · split
      · refine newSat_trans ?_ (newSat_step (hstatusW _) hstop)
        refine newSat_trans ?_ (newSat_checkStep hchk hstop)
        exact newSat_step (hlogW _ _) hstop
      · refine newSat_trans ?_ (newSat_step (hstatusW _) hstop)
        refine newSat_trans ?_ (newSat_searchSiteJobs cfg Source.indeed _)
        refine newSat_trans ?_ (newSat_searchSiteJobs cfg Source.linkedin _)
        refine newSat_trans ?_ (newSat_checkStep hchk hstop)
        exact newSat_step (hlogW _ _) hstop
  rcases h e he with h2 | h2
  · simp [initRState] at h2
  · exact h2

/-- Claim C2 (amended): in a run with a profile, no concurrent stop and
no search failure, every application attempt in the trace is at a
non-excluded company (an excluded listing is never applied to), and
every excluded listing of every scraped batch gets its
"Skipping job at excluded company" log entry.  (The counterexample
`c2_counterexample` shows the remainder of the original claim fails: the
listing stays `found` and the skipped counter is not incremented.) -/
theorem c2_exclusion_amended (cfg : Config) (hn : cfg.stopAt = none)
    (hprof : cfg.hasProfile = true)
    (hok : ∀ src t loc m, cfg.search src t loc ≠ SearchOutcome.err m) :
    (∀ src lst, Tag.applyOp src lst ∈ (startAutoApplyProcess cfg).trace.map Prod.fst →
      isExcluded cfg.excludeCompanies lst.company = false) ∧
    (∀ src t loc lst, (t, loc) ∈ pairsOf cfg → lst ∈ batchOf cfg src t loc →
      isExcluded cfg.excludeCompanies lst.company = true →
      skipLogEntry lst.company ∈ (startAutoApplyProcess cfg).sess.logs) := by
  constructor
  · intro src lst hmem
    obtain ⟨e, he, heq⟩ := List.mem_map.mp hmem
    exact run_applySafe cfg e he src lst heq
  · intro src t loc lst hp hl hex
    simp only [startAutoApplyProcess]
    have hrunB : (logStep cfg "Initializing browser for job search" LogType.info
        (initRState cfg)).sess.status = Status.running := by
      rw [(stepsMono_logStep cfg _ _ _).2.2 hn]
      rfl
    have hchkf : (checkStep cfg (logStep cfg "Initializing browser for job search" LogType.info
        (initRState cfg))).2 = false := by
      rw [(checkStep_none hn _).2, isSessionStopped, hrunB]
    rw [hchkf]
    simp only [Bool.false_eq_true, if_false, hprof, Bool.true_eq_false]
    have hrunC : (checkStep cfg (logStep cfg "Initializing browser for job search" LogType.info
        (initRState cfg))).1.sess.status = Status.running := by
      rw [(stepsMono_checkStep cfg _).2.2 hn]
      exact hrunB
    cases src with
    | linkedin =>
        have hmem := searchSiteJobs_skip_log hn Source.linkedin _
          (fun a b m => hok Source.linkedin a b m) hrunC t loc hp lst hl hex
        refine step_logs_mono cfg _ _ _ ?_ _
          ((stepsMono_searchSiteJobs cfg Source.indeed _).2.1 _ hmem)
        intro s x hx
        exact List.mem_append_left _ hx
    | indeed =>
        have hrunD : (searchSiteJobs cfg Source.linkedin
            (checkStep cfg (logStep cfg "Initializing browser for job search" LogType.info
              (initRState cfg))).1).sess.status = Status.running := by
          rw [(stepsMono_searchSiteJobs cfg Source.linkedin _).2.2 hn]
          exact hrunC
        have hmem := searchSiteJobs_skip_log hn Source.indeed _
          (fun a b m => hok Source.indeed a b m) hrunD t loc hp lst hl hex
        refine step_logs_mono cfg _ _ _ ?_ _ hmem
        intro s x hx
        exact List.mem_append_left _ hx

/-- Claim C2 (amended) witness: the concrete excluded-company run gets
its skip log entry, and no application attempt at BadCorp occurs. -/
theorem c2_exclusion_amended_witness :
    skipLogEntry lstBadCorp.company ∈ (startAutoApplyProcess cfgExcluded).sess.logs ∧
    (Tag.applyOp Source.linkedin lstBadCorp ∈
        (startAutoApplyProcess cfgExcluded).trace.map Prod.fst →
      isExcluded cfgExcluded.excludeCompanies lstBadCorp.company = false) :=
  ⟨(c2_exclusion_amended cfgExcluded rfl rfl
      (by intro src t loc m h; cases src <;> exact nomatch h)).2
      Source.linkedin "Backend Engineer" "Remote" lstBadCorp (by decide) (by decide) (by decide),
    fun hmem => (c2_exclusion_amended cfgExcluded rfl rfl
      (by intro src t loc m h; cases src <;> exact nomatch h)).1
      Source.linkedin lstBadCorp hmem⟩

/-! ## Claim C3 (amended): a thrown search aborts the driver -/

theorem processJob_brkTrue (cfg : Config) (src : Source) (l : Listing) (st : RState)
    (hb : st.brk = true) : processJob cfg src l st = st := by
  simp [processJob, hb]

theorem jobsLoop_brkTrue (cfg : Config) (src : Source) (ls : List Listing) (st : RState)
    (hb : st.brk = true) : jobsLoop cfg src ls st = st := by
  induction ls with
  | nil => rfl
  | cons l ls ih =>
      show jobsLoop cfg src ls (processJob cfg src l st) = st
      rw [processJob_brkTrue cfg src l st hb, ih]

theorem runPair_brkTrue (cfg : Config) (src : Source) (t loc : String) (st : RState)
    (hb : st.brk = true) : runPair cfg src t loc st = st := by
  simp [runPair, hb]

theorem runPairs_brkTrue (cfg : Config) (src : Source) (ps : List (String × String))
    (st : RState) (hb : st.brk = true) : runPairs cfg src ps st = st := by
  induction ps with
  | nil => rfl
  | cons p ps ih =>
      show runPairs cfg src ps (runPair cfg src p.1 p.2 st) = st
      rw [runPair_brkTrue cfg src p.1 p.2 st hb, ih]

/-- Reduction of the background task in a run that passes its initial
check and finds a profile. -/
theorem run_unfold_ok {cfg : Config} (hn : cfg.stopAt = none) (hprof : cfg.hasProfile = true) :
    startAutoApplyProcess cfg =
      step cfg (Tag.statusW Status.completed)
        (fun s => { s with status := Status.completed,
                           logs := s.logs ++
                             [{ message := "Auto-apply session completed",
                                type := LogType.info }] })
        (searchSiteJobs cfg Source.indeed (searchSiteJobs cfg Source.linkedin
          (checkStep cfg (logStep cfg "Initializing browser for job search" LogType.info
            (initRState cfg))).1)) := by
  have hrunB : (logStep cfg "Initializing browser for job search" LogType.info
      (initRState cfg)).sess.status = Status.running := by
    rw [(stepsMono_logStep cfg _ _ _).2.2 hn]
    rfl
  have hchkf : (checkStep cfg (logStep cfg "Initializing browser for job search" LogType.info
      (initRState cfg))).2 = false := by
    rw [(checkStep_none hn _).2, isSessionStopped, hrunB]
  simp only [startAutoApplyProcess]
  rw [hchkf]
  simp only [Bool.false_eq_true, if_false, hprof, Bool.true_eq_false]

/-- Explicit form of the LinkedIn driver when the very first search
throws: the check, the two log entries and the single search operation
happen, and every remaining (title, location) pair is skipped. -/
theorem searchSiteJobs_err_first {cfg : Config} (hn : cfg.stopAt = none)
    {t0 : String} {ts : List String} {l0 : String} {ls : List String}
    (ht : cfg.jobTitles = t0 :: ts) (hl : cfg.locations = l0 :: ls)
    {m : String} (herr : cfg.search Source.linkedin t0 l0 = SearchOutcome.err m)
    (st : RState) (hrun : st.sess.status = Status.running) :
    searchSiteJobs cfg Source.linkedin st =
      { logStep cfg ("Error in LinkedIn job search: " ++ m) LogType.error
          (opStep cfg (Tag.searchOp Source.linkedin t0 l0)
            (logStep cfg ("Searching for " ++ t0 ++ " in " ++ l0) LogType.info
              (checkStep cfg (logStep cfg "Starting LinkedIn job search" LogType.info
                { st with brk := false })).1)) with brk := false } := by
  obtain ⟨rest, hp⟩ : ∃ rest, pairsOf cfg = (t0, l0) :: rest :=
    ⟨List.map (fun l => (t0, l)) ls ++
        ts.flatMap (fun t => (t, l0) :: List.map (fun l => (t, l)) ls),
      by simp [pairsOf, ht, hl]⟩
  have hbrk1 : (logStep cfg "Starting LinkedIn job search" LogType.info
      { st with brk := false }).brk = false := by
    rw [logStep, step_brk]
  have hrun1 : (logStep cfg "Starting LinkedIn job search" LogType.info
      { st with brk := false }).sess.status = Status.running := by
    rw [(stepsMono_logStep cfg _ _ _).2.2 hn]
    exact hrun
  have hchk1 : (checkStep cfg (logStep cfg "Starting LinkedIn job search" LogType.info
      { st with brk := false })).2 = false := by
    rw [(checkStep_none hn _).2, isSessionStopped, hrun1]
  have h1 : runPair cfg Source.linkedin t0 l0
      (logStep cfg "Starting LinkedIn job search" LogType.info { st with brk := false }) =
      { logStep cfg ("Error in LinkedIn job search: " ++ m) LogType.error
          (opStep cfg (Tag.searchOp Source.linkedin t0 l0)
            (logStep cfg ("Searching for " ++ t0 ++ " in " ++ l0) LogType.info
              (checkStep cfg (logStep cfg "Starting LinkedIn job search" LogType.info
                { st with brk := false })).1)) with brk := true } := by
    simp only [runPair, hbrk1, hchk1, Bool.false_eq_true, if_false, herr]
    rfl
  simp only [searchSiteJobs]
  rw [hp]
  show { runPairs cfg Source.linkedin ((t0, l0) :: rest)
      (logStep cfg "Starting LinkedIn job search" LogType.info { st with brk := false })
    with brk := false } = _
  have h2 : runPairs cfg Source.linkedin ((t0, l0) :: rest)
      (logStep cfg "Starting LinkedIn job search" LogType.info { st with brk := false }) =
      runPairs cfg Source.linkedin rest
        (runPair cfg Source.linkedin t0 l0
          (logStep cfg "Starting LinkedIn job search" LogType.info { st with brk := false })) :=
    rfl
  rw [h2, h1, runPairs_brkTrue cfg Source.linkedin rest _ rfl]

theorem newSatP_processJob (P : Tag → Prop) (cfg : Config) (src : Source) (l : Listing)
    (st : RState) (hstop : P Tag.stopW) (hchk : ∀ b, P (Tag.check b))
    (hlog : ∀ m ty, P (Tag.logW m ty)) (hjobW : ∀ u j, P (Tag.jobW u j))
    (hcnt : ∀ b, P (Tag.cntW b)) (happ : P (Tag.applyOp src l)) :
    NewSat P st (processJob cfg src l st) := by
  simp only [processJob]
  split
  · exact newSat_refl _ _
  · split
    · exact newSat_withBrk (newSat_checkStep hchk hstop) true
    · split
      · refine newSat_trans ?_ (newSat_step (hlog _ _) hstop)
        exact newSat_checkStep hchk hstop
      · split <;>
        · refine newSat_trans ?_ (newSat_step (hcnt _) hstop)
          refine newSat_trans ?_ (newSat_step (hlog _ _) hstop)
          refine newSat_trans ?_ (newSat_step (hjobW _ _) hstop)
          refine newSat_trans ?_ (newSat_step happ hstop)
          refine newSat_trans ?_ (newSat_step (hlog _ _) hstop)
          exact newSat_checkStep hchk hstop

theorem newSatP_jobsLoop (P : Tag → Prop) (cfg : Config) (src : Source) (ls : List Listing)
    (st : RState) (hstop : P Tag.stopW) (hchk : ∀ b, P (Tag.check b))
    (hlog : ∀ m ty, P (Tag.logW m ty)) (hjobW : ∀ u j, P (Tag.jobW u j))
    (hcnt : ∀ b, P (Tag.cntW b)) (happ : ∀ l, P (Tag.applyOp src l)) :
    NewSat P st (jobsLoop cfg src ls st) := by
  induction ls generalizing st with
  | nil => exact newSat_refl _ _
  | cons l ls ih =>
      exact newSat_trans
        (newSatP_processJob P cfg src l st hstop hchk hlog hjobW hcnt (happ l)) (ih _)

theorem newSatP_appendJobsSteps (P : Tag → Prop) (cfg : Config) (ls : List Listing)
    (st : RState) (hstop : P Tag.stopW) (hlog : ∀ m ty, P (Tag.logW m ty))
    (hjobs : ∀ n, P (Tag.jobsW n)) :
    NewSat P st (appendJobsSteps cfg ls st) := by
  simp only [appendJobsSteps]
  split
  · refine newSat_trans ?_ (newSat_step (hlog _ _) hstop)
    exact newSat_step (hjobs _) hstop
  · exact newSat_refl _ _

theorem newSatP_runPair (P : Tag → Prop) (cfg : Config) (src : Source) (t loc : String)
    (st : RState) (hstop : P Tag.stopW) (hchk : ∀ b, P (Tag.check b))
    (hlog : ∀ m ty, P (Tag.logW m ty)) (hjobW : ∀ u j, P (Tag.jobW u j))
    (hcnt : ∀ b, P (Tag.cntW b)) (hjobs : ∀ n, P (Tag.jobsW n))
    (happ : ∀ l, P (Tag.applyOp src l)) (hsrch : P (Tag.searchOp src t loc)) :
    NewSat P st (runPair cfg src t loc st) := by
  simp only [runPair]
  split
  · exact newSat_refl _ _
  · split
    · refine newSat_withBrk ?_ true
      refine newSat_trans ?_ (newSat_step (hlog _ _) hstop)
      exact newSat_checkStep hchk hstop
    · split
      · refine newSat_withBrk ?_ true
        refine newSat_trans ?_ (newSat_step (hlog _ _) hstop)
        refine newSat_trans ?_ (newSat_step hsrch hstop)
        refine newSat_trans ?_ (newSat_step (hlog _ _) hstop)
        exact newSat_checkStep hchk hstop
      · refine newSat_trans ?_
          (newSatP_jobsLoop P cfg src _ _ hstop hchk hlog hjobW hcnt happ)
        refine newSat_trans ?_ (newSatP_appendJobsSteps P cfg _ _ hstop hlog hjobs)
        refine newSat_trans ?_ (newSat_step hsrch hstop)
        refine newSat_trans ?_ (newSat_step (hlog _ _) hstop)
        exact newSat_checkStep hchk hstop

theorem newSatP_runPairs (P : Tag → Prop) (cfg : Config) (src : Source)
    (ps : List (String × String)) (st : RState) (hstop : P Tag.stopW)
    (hchk : ∀ b, P (Tag.check b)) (hlog : ∀ m ty, P (Tag.logW m ty))
    (hjobW : ∀ u j, P (Tag.jobW u j)) (hcnt : ∀ b, P (Tag.cntW b))
    (hjobs : ∀ n, P (Tag.jobsW n)) (happ : ∀ l, P (Tag.applyOp src l))
    (hsrch : ∀ a b, P (Tag.searchOp src a b)) :
    NewSat P st (runPairs cfg src ps st) := by
  induction ps generalizing st with
  | nil => exact newSat_refl _ _
  | cons p ps ih =>
      exact newSat_trans
        (newSatP_runPair P cfg src p.1 p.2 st hstop hchk hlog hjobW hcnt hjobs happ
          (hsrch p.1 p.2)) (ih _)

theorem newSatP_searchSiteJobs (P : Tag → Prop) (cfg : Config) (src : Source) (st : RState)
    (hstop : P Tag.stopW) (hchk : ∀ b, P (Tag.check b)) (hlog : ∀ m ty, P (Tag.logW m ty))
    (hjobW : ∀ u j, P (Tag.jobW u j)) (hcnt : ∀ b, P (Tag.cntW b))
    (hjobs : ∀ n, P (Tag.jobsW n)) (happ : ∀ l, P (Tag.applyOp src l))
    (hsrch : ∀ a b, P (Tag.searchOp src a b)) :
    NewSat P st (searchSiteJobs cfg src st) := by
  simp only [searchSiteJobs]
  refine newSat_withBrk ?_ false
  refine newSat_trans ?_
    (newSatP_runPairs P cfg src _ _ hstop hchk hlog hjobW hcnt hjobs happ hsrch)
  have hbase : NewSat P st { st with brk := false } := fun _ he => Or.inl he
  exact newSat_trans hbase (newSat_step (hlog _ _) hstop)

theorem step_emits (cfg : Config) (tag : Tag) (f : Session → Session) (st : RState) :
    tag ∈ (step cfg tag f st).trace.map Prod.fst := by
  simp [step]

theorem mem_map_fst_mono {st st' : RState} (h : ∀ e ∈ st.trace, e ∈ st'.trace) {tg : Tag}
    (hm : tg ∈ st.trace.map Prod.fst) : tg ∈ st'.trace.map Prod.fst := by
  obtain ⟨e, he, heq⟩ := List.mem_map.mp hm
  exact List.mem_map.mpr ⟨e, h e he, heq⟩

theorem runPair_emits_searchOp {cfg : Config} (hn : cfg.stopAt = none) (src : Source)
    (t loc : String) (st : RState) (hrun : st.sess.status = Status.running)
    (hbrk : st.brk = false) :
    Tag.searchOp src t loc ∈ (runPair cfg src t loc st).trace.map Prod.fst := by
  have hchk : (checkStep cfg st).2 = false := by
    rw [(checkStep_none hn _).2, isSessionStopped, hrun]
  simp only [runPair, hbrk, hchk, Bool.false_eq_true, if_false]
  have hop : Tag.searchOp src t loc ∈
      (opStep cfg (Tag.searchOp src t loc)
        (logStep cfg ("Searching for " ++ t ++ " in " ++ loc) LogType.info
          (checkStep cfg st).1)).trace.map Prod.fst :=
    step_emits cfg _ _ _
  split
  · exact mem_map_fst_mono (stepsMono_logStep cfg _ _ _).1 hop
  · refine mem_map_fst_mono (stepsMono_jobsLoop cfg src _ _).1 ?_
    exact mem_map_fst_mono (stepsMono_appendJobsSteps cfg _ _).1 hop

theorem searchSiteJobs_emits_first {cfg : Config} (hn : cfg.stopAt = none) (src : Source)
    (st : RState) (hrun : st.sess.status = Status.running)
    {t0 l0 : String} {rest : List (String × String)}
    (hp : pairsOf cfg = (t0, l0) :: rest) :
    Tag.searchOp src t0 l0 ∈ (searchSiteJobs cfg src st).trace.map Prod.fst := by
  simp only [searchSiteJobs]
  rw [hp]
  show Tag.searchOp src t0 l0 ∈ ({ runPairs cfg src ((t0, l0) :: rest)
    (logStep cfg ("Starting " ++ srcName src ++ " job search") LogType.info
      { st with brk := false }) with brk := false }).trace.map Prod.fst
  have hrun1 : (logStep cfg ("Starting " ++ srcName src ++ " job search") LogType.info
      { st with brk := false }).sess.status = Status.running := by
    rw [(stepsMono_logStep cfg _ _ _).2.2 hn]
    exact hrun
  have hbrk1 : (logStep cfg ("Starting " ++ srcName src ++ " job search") LogType.info
      { st with brk := false }).brk = false := by
    rw [logStep, step_brk]
  have h0 := runPair_emits_searchOp hn src t0 l0 _ hrun1 hbrk1
  exact mem_map_fst_mono (stepsMono_runPairs cfg src rest _).1 h0

theorem step_trace_mono (cfg : Config) (tag : Tag) (f : Session → Session) (st : RState) :
    ∀ e ∈ st.trace, e ∈ (step cfg tag f st).trace := by
  intro e he
  simp only [step]
  exact List.mem_append_left _ ((stepsMono_inject cfg st).1 e he)

/-- Claim C3 (amended): when the first LinkedIn search throws, the
orchestrator logs the driver-level error entry, never searches any other
(title, location) pair of the LinkedIn driver, still runs the Indeed
driver (its first pair is searched), and the session ends `completed` —
the failure is confined to the background task and never surfaced. -/
theorem c3_search_failure_amended (cfg : Config) (hn : cfg.stopAt = none)
    (hprof : cfg.hasProfile = true)
    {t0 : String} {ts : List String} {l0 : String} {ls : List String}
    (ht : cfg.jobTitles = t0 :: ts) (hl : cfg.locations = l0 :: ls)
    {m : String} (herr : cfg.search Source.linkedin t0 l0 = SearchOutcome.err m) :
    (({ message := "Error in LinkedIn job search: " ++ m, type := LogType.error } : LogEntry)
      ∈ (startAutoApplyProcess cfg).sess.logs) ∧
    (∀ a b, Tag.searchOp Source.linkedin a b ∈
        (startAutoApplyProcess cfg).trace.map Prod.fst → a = t0 ∧ b = l0) ∧
    Tag.searchOp Source.indeed t0 l0 ∈ (startAutoApplyProcess cfg).trace.map Prod.fst ∧
    (startAutoApplyProcess cfg).sess.status = Status.completed := by
  obtain ⟨rest, hp⟩ : ∃ rest, pairsOf cfg = (t0, l0) :: rest :=
    ⟨List.map (fun l => (t0, l)) ls ++
        ts.flatMap (fun t => (t, l0) :: List.map (fun l => (t, l)) ls),
      by simp [pairsOf, ht, hl]⟩
  rw [run_unfold_ok hn hprof]
  have hrunC : (checkStep cfg (logStep cfg "Initializing browser for job search" LogType.info
      (initRState cfg))).1.sess.status = Status.running := by
    rw [(stepsMono_checkStep cfg _).2.2 hn, (stepsMono_logStep cfg _ _ _).2.2 hn]
    rfl
  have hseg := searchSiteJobs_err_first hn ht hl herr
    (checkStep cfg (logStep cfg "Initializing browser for job search" LogType.info
      (initRState cfg))).1 hrunC
  refine ⟨?_, ?_, ?_, ?_⟩
  · have hmem0 : LogEntry.mk ("Error in LinkedIn job search: " ++ m) LogType.error ∈
        (searchSiteJobs cfg Source.linkedin
          (checkStep cfg (logStep cfg "Initializing browser for job search" LogType.info
            (initRState cfg))).1).sess.logs := by
      rw [hseg]
      simp [logStep_sess_none hn]
    refine step_logs_mono cfg _ _ _ ?_ _
      ((stepsMono_searchSiteJobs cfg Source.indeed _).2.1 _ hmem0)
    intro s x hx
    exact List.mem_append_left _ hx
  · intro a b hmem
    obtain ⟨e, he, heq⟩ := List.mem_map.mp hmem
    have hP : NewSat (fun tg => ∀ a b, tg = Tag.searchOp Source.linkedin a b → a = t0 ∧ b = l0)
        (initRState cfg)
        (step cfg (Tag.statusW Status.completed)
          (fun s => { s with status := Status.completed,
                             logs := s.logs ++
                               [{ message := "Auto-apply session completed",
                                  type := LogType.info }] })
          (searchSiteJobs cfg Source.indeed (searchSiteJobs cfg Source.linkedin
            (checkStep cfg (logStep cfg "Initializing browser for job search" LogType.info
              (initRState cfg))).1))) := by
      refine newSat_trans ?_ (newSat_step (fun _ _ h => nomatch h) (fun _ _ h => nomatch h))
      refine newSat_trans ?_ (newSatP_searchSiteJobs _ cfg Source.indeed _
        (fun _ _ h => nomatch h) (fun _ _ _ h => nomatch h) (fun _ _ _ _ h => nomatch h)
        (fun _ _ _ _ h => nomatch h) (fun _ _ _ h => nomatch h) (fun _ _ _ h => nomatch h)
        (fun _ _ _ h => nomatch h) (fun _ _ _ _ h => nomatch h))
      rw [hseg]
      refine newSat_withBrk ?_ false
      refine newSat_trans ?_ (newSat_step (fun _ _ h => nomatch h) (fun _ _ h => nomatch h))
      refine newSat_trans ?_ (newSat_step
        (fun a b h => by cases h; exact ⟨rfl, rfl⟩) (fun _ _ h => nomatch h))
      refine newSat_trans ?_ (newSat_step (fun _ _ h => nomatch h) (fun _ _ h => nomatch h))
      refine newSat_trans ?_ (newSat_checkStep (fun _ _ _ h => nomatch h)
        (fun _ _ h => nomatch h))
      refine newSat_trans ?_ (newSat_step (fun _ _ h => nomatch h) (fun _ _ h => nomatch h))
      refine newSat_withBrk ?_ false
      refine newSat_trans ?_ (newSat_checkStep (fun _ _ _ h => nomatch h)
        (fun _ _ h => nomatch h))
      exact newSat_step (fun _ _ h => nomatch h) (fun _ _ h => nomatch h)
    rcases hP e he with h2 | h2
    · simp [initRState] at h2
    · exact h2 a b heq
  · have hrunD : (searchSiteJobs cfg Source.linkedin
        (checkStep cfg (logStep cfg "Initializing browser for job search" LogType.info
          (initRState cfg))).1).sess.status = Status.running := by
      rw [(stepsMono_searchSiteJobs cfg Source.linkedin _).2.2 hn]
      exact hrunC
    have h0 := searchSiteJobs_emits_first hn Source.indeed _ hrunD hp
    exact mem_map_fst_mono (step_trace_mono cfg _ _ _) h0
  · simp [step, inject_none hn]

/-- Claim C3 (amended) witness: the concrete run with two pairs whose
first LinkedIn search throws. -/
theorem c3_search_failure_amended_witness :
    (({ message := "Error in LinkedIn job search: nav failed",
        type := LogType.error } : LogEntry) ∈ (startAutoApplyProcess cfgSearchErr).sess.logs) ∧
    Tag.searchOp Source.indeed "T" "L1" ∈
      (startAutoApplyProcess cfgSearchErr).trace.map Prod.fst ∧
    (startAutoApplyProcess cfgSearchErr).sess.status = Status.completed :=
  ⟨(c3_search_failure_amended cfgSearchErr rfl rfl rfl rfl
      (by decide :
        cfgSearchErr.search Source.linkedin "T" "L1" = SearchOutcome.err "nav failed")).1,
    (c3_search_failure_amended cfgSearchErr rfl rfl rfl rfl
      (by decide :
        cfgSearchErr.search Source.linkedin "T" "L1" = SearchOutcome.err "nav failed")).2.2.1,
    (c3_search_failure_amended cfgSearchErr rfl rfl rfl rfl
      (by decide :
        cfgSearchErr.search Source.linkedin "T" "L1" = SearchOutcome.err "nav failed")).2.2.2⟩

/-! ## Claim C6: at most one adapter operation after a persisted stop -/

theorem opsIn_append (a b : List Entry) : opsIn (a ++ b) = opsIn a + opsIn b := by
  simp [opsIn, List.filter_append]

theorem hasStopTag_append (a b : List Entry) :
    hasStopTag (a ++ b) = (hasStopTag a || hasStopTag b) := by
  simp [hasStopTag, List.any_append]

theorem afterStop_cons_stop {x : Entry} (h : isStopTag x.1 = true) (rest : List Entry) :
    afterStop (x :: rest) = rest := by
  simp [afterStop, List.dropWhile, h]

theorem afterStop_cons_not {x : Entry} (h : isStopTag x.1 = false) (rest : List Entry) :
    afterStop (x :: rest) = afterStop rest := by
  simp [afterStop, List.dropWhile, h]

theorem afterStop_of_no_stop {a : List Entry} (h : hasStopTag a = false) :
    afterStop a = [] := by
  induction a with
  | nil => rfl
  | cons x xs ih =>
      rw [hasStopTag] at h
      simp only [List.any_cons, Bool.or_eq_false_iff] at h
      rw [afterStop_cons_not h.1, ih h.2]

theorem afterStop_append_pos {a : List Entry} (b : List Entry) (h : hasStopTag a = true) :
    afterStop (a ++ b) = afterStop a ++ b := by
  induction a with
  | nil => simp [hasStopTag] at h
  | cons x xs ih =>
      by_cases hx : isStopTag x.1
      · rw [List.cons_append, afterStop_cons_stop hx, afterStop_cons_stop hx]
      · rw [Bool.not_eq_true] at hx
        have h2 : hasStopTag xs = true := by
          rw [hasStopTag] at h
          simp only [List.any_cons, hx, Bool.false_or] at h
          exact h
        rw [List.cons_append, afterStop_cons_not hx, afterStop_cons_not hx, ih h2]

theorem afterStop_append_neg {a : List Entry} (b : List Entry) (h : hasStopTag a = false) :
    afterStop (a ++ b) = afterStop b := by
  induction a with
  | nil => rfl
  | cons x xs ih =>
      rw [hasStopTag] at h
      simp only [List.any_cons, Bool.or_eq_false_iff] at h
      rw [List.cons_append, afterStop_cons_not h.1]
      exact ih h.2

theorem opsAfterStop_append_pos {a : List Entry} (b : List Entry) (h : hasStopTag a = true) :
    opsAfterStop (a ++ b) = opsAfterStop a + opsIn b := by
  rw [opsAfterStop, afterStop_append_pos b h, opsIn_append]
  rfl

theorem opsAfterStop_append_neg {a : List Entry} (b : List Entry) (h : hasStopTag a = false) :
    opsAfterStop (a ++ b) = opsAfterStop b := by
  rw [opsAfterStop, afterStop_append_neg b h]
  rfl

/-- The stop request has already been persisted (and the document is no
longer `running`). -/
def Past (cfg : Config) (st : RState) : Prop :=
  (∃ n, cfg.stopAt = some n ∧ n < st.clock) ∧ st.sess.status ≠ Status.running

/-- The stop request (if any) has not yet been persisted. -/
def Fut (cfg : Config) (st : RState) : Prop :=
  ∀ n, cfg.stopAt = some n → st.clock ≤ n

/-- Segment contract of a sub-computation: the trace grows by `seg`;
entered after a persisted stop it performs at most `bp` adapter
operations and persists no further stop; entered before the stop it
either passes it through untouched or contains the persisted stop and at
most `bf` adapter operations after it, leaving a post-stop state. -/
def SegOk (cfg : Config) (bp bf : Nat) (st st' : RState) (seg : List Entry) : Prop :=
  st'.trace = st.trace ++ seg ∧
  (Past cfg st → hasStopTag seg = false ∧ opsIn seg ≤ bp ∧ Past cfg st') ∧
  (Fut cfg st → (hasStopTag seg = false ∧ Fut cfg st') ∨
                (hasStopTag seg = true ∧ opsAfterStop seg ≤ bf ∧ Past cfg st'))

theorem SegOk.comp {cfg : Config} {bp1 bf1 bp2 bf2 : Nat} {st st' st'' : RState}
    {s1 s2 : List Entry} (h1 : SegOk cfg bp1 bf1 st st' s1)
    (h2 : SegOk cfg bp2 bf2 st' st'' s2) :
    SegOk cfg (bp1 + bp2) (max (bf1 + bp2) bf2) st st'' (s1 ++ s2) := by
  obtain ⟨ht1, hp1, hf1⟩ := h1
  obtain ⟨ht2, hp2, hf2⟩ := h2
  refine ⟨by rw [ht2, ht1, List.append_assoc], ?_, ?_⟩
  · intro hpast
    obtain ⟨hs1, ho1, hpast'⟩ := hp1 hpast
    obtain ⟨hs2, ho2, hpast''⟩ := hp2 hpast'
    refine ⟨by rw [hasStopTag_append, hs1, hs2]; rfl, ?_, hpast''⟩
    rw [opsIn_append]
    omega
  · intro hfut
    rcases hf1 hfut with ⟨hs1, hfut'⟩ | ⟨hs1, ho1, hpast'⟩
    · rcases hf2 hfut' with ⟨hs2, hfut''⟩ | ⟨hs2, ho2, hpast''⟩
      · exact Or.inl ⟨by rw [hasStopTag_append, hs1, hs2]; rfl, hfut''⟩
      · refine Or.inr ⟨by rw [hasStopTag_append, hs1, hs2]; rfl, ?_, hpast''⟩
        rw [opsAfterStop_append_neg s2 hs1]
        omega
    · obtain ⟨hs2, ho2, hpast''⟩ := hp2 hpast'
      refine Or.inr ⟨by rw [hasStopTag_append, hs1]; rfl, ?_, hpast''⟩
      rw [opsAfterStop_append_pos s2 hs1]
      omega

theorem SegOk.mono {cfg : Config} {bp bf bp' bf' : Nat} {st st' : RState} {seg : List Entry}
    (h : SegOk cfg bp bf st st' seg) (h1 : bp ≤ bp') (h2 : bf ≤ bf') :
    SegOk cfg bp' bf' st st' seg := by
  obtain ⟨ht, hp, hf⟩ := h
  refine ⟨ht, ?_, ?_⟩
  · intro hpast
    obtain ⟨a, b, c⟩ := hp hpast
    exact ⟨a, le_trans b h1, c⟩
  · intro hfut
    rcases hf hfut with ⟨a, b⟩ | ⟨a, b, c⟩
    · exact Or.inl ⟨a, b⟩
    · exact Or.inr ⟨a, le_trans b h2, c⟩

theorem SegOk.ofNotPast {cfg : Config} {bp bf bp' : Nat} {st st' : RState} {seg : List Entry}
    (h : SegOk cfg bp bf st st' seg) (hnp : ¬ Past cfg st) :
    SegOk cfg bp' bf st st' seg :=
  ⟨h.1, fun hp => absurd hp hnp, h.2.2⟩

theorem segOk_id (cfg : Config) (st : RState) : SegOk cfg 0 0 st st [] := by
  refine ⟨by simp, ?_, ?_⟩
  · intro hpast
    exact ⟨rfl, Nat.le_refl 0, hpast⟩
  · intro hfut
    exact Or.inl ⟨rfl, hfut⟩

theorem segOk_brk (cfg : Config) (st : RState) (b : Bool) :
    SegOk cfg 0 0 st { st with brk := b } [] := by
  refine ⟨by simp, ?_, ?_⟩
  · intro hpast
    exact ⟨rfl, Nat.le_refl 0, hpast⟩
  · intro hfut
    exact Or.inl ⟨rfl, hfut⟩

theorem stopUpdate_not_running (s : Session) : (stopUpdate s).status ≠ Status.running := by
  unfold stopUpdate
  by_cases h : s.status = Status.running
  · rw [if_pos h]
    simp
  · rw [if_neg h]
    exact h

theorem inject_miss {cfg : Config} {st : RState} {n : Nat} (hso : cfg.stopAt = some n)
    (hc : st.clock ≠ n) : inject cfg st = st := by
  unfold inject
  simp only [hso]
  rw [if_neg hc]

theorem inject_hit {cfg : Config} {st : RState} {n : Nat} (hso : cfg.stopAt = some n)
    (hc : st.clock = n) :
    inject cfg st = { st with sess := stopUpdate st.sess,
                              trace := st.trace ++ [(Tag.stopW, stopUpdate st.sess)] } := by
  unfold inject
  simp only [hso]
  rw [if_pos hc]

theorem inject_of_past {cfg : Config} {st : RState} (h : Past cfg st) : inject cfg st = st := by
  obtain ⟨⟨n, hsome, hlt⟩, _⟩ := h
  exact inject_miss hsome (by omega)

theorem step_clock (cfg : Config) (tag : Tag) (f : Session → Session) (st : RState) :
    (step cfg tag f st).clock = st.clock + 1 := by
  rcases inject_cases cfg st with h | h <;> simp [step, h]

theorem checkStep_clock (cfg : Config) (st : RState) :
    (checkStep cfg st).1.clock = st.clock + 1 := by
  rcases inject_cases cfg st with h | h <;> simp [checkStep, h]

theorem isSessionStopped_of_not_running {s : Session} (h : s.status ≠ Status.running) :
    isSessionStopped s = true := by
  unfold isSessionStopped
  cases hs : s.status
  · exact absurd hs h
  · rfl
  · rfl
  · rfl

theorem checkStep_past {cfg : Config} {st : RState} (h : Past cfg st) :
    (checkStep cfg st).2 = true := by
  simp only [checkStep, inject_of_past h]
  exact isSessionStopped_of_not_running h.2

theorem segOk_step_nonop (cfg : Config) (tag : Tag) (f : Session → Session) (st : RState)
    (htag : isOpTag tag = false) (htag2 : isStopTag tag = false)
    (hf : ∀ s, s.status ≠ Status.running → (f s).status ≠ Status.running) :
    ∃ seg, SegOk cfg 0 0 st (step cfg tag f st) seg := by
  cases hso : cfg.stopAt with
  | none =>
      have hi : inject cfg st = st := inject_none hso st
      refine ⟨[(tag, f st.sess)], ?_, ?_, ?_⟩
      · simp [step, hi]
      · intro hpast
        refine ⟨by simp [hasStopTag, htag2], by simp [opsIn, htag], ?_, ?_⟩
        · obtain ⟨⟨n, hsome, hlt⟩, _⟩ := hpast
          exact ⟨n, hsome, by rw [step_clock]; omega⟩
        · show (step cfg tag f st).sess.status ≠ Status.running
          rw [show (step cfg tag f st).sess = f st.sess from by simp [step, hi]]
          exact hf _ hpast.2
      · intro hfut
        refine Or.inl ⟨by simp [hasStopTag, htag2], ?_⟩
        intro n hsome
        rw [hso] at hsome
        exact absurd hsome (by simp)
  | some n =>
      by_cases hc : st.clock = n
      · have hi := inject_hit hso hc
        refine ⟨[(Tag.stopW, stopUpdate st.sess), (tag, f (stopUpdate st.sess))], ?_, ?_, ?_⟩
        · simp [step, hi]
        · intro hpast
          obtain ⟨⟨n2, hsome, hlt⟩, _⟩ := hpast
          rw [hso] at hsome
          have := Option.some.inj hsome
          omega
        · intro _
          refine Or.inr ⟨by simp [hasStopTag, isStopTag], ?_, ?_, ?_⟩
          · rw [opsAfterStop, afterStop_cons_stop (by rfl)]
            simp [opsIn, htag]
          · exact ⟨n, hso, by rw [step_clock]; omega⟩
          · show (step cfg tag f st).sess.status ≠ Status.running
            rw [show (step cfg tag f st).sess = f (stopUpdate st.sess) from by simp [step, hi]]
            exact hf _ (stopUpdate_not_running st.sess)
      · have hi := inject_miss hso hc
        refine ⟨[(tag, f st.sess)], ?_, ?_, ?_⟩
        · simp [step, hi]
        · intro hpast
          obtain ⟨⟨n2, hsome, hlt⟩, hst⟩ := hpast
          refine ⟨by simp [hasStopTag, htag2], by simp [opsIn, htag], ?_, ?_⟩
          · exact ⟨n2, hsome, by rw [step_clock]; omega⟩
          · show (step cfg tag f st).sess.status ≠ Status.running
            rw [show (step cfg tag f st).sess = f st.sess from by simp [step, hi]]
            exact hf _ hst
        · intro hfut
          refine Or.inl ⟨by simp [hasStopTag, htag2], ?_⟩
          intro n2 hsome
          rw [hso] at hsome
          have hn2 := Option.some.inj hsome
          have hle := hfut n hso
          rw [step_clock]
          omega

theorem segOk_op (cfg : Config) (tag : Tag) (st : RState) (htag : isOpTag tag = true)
    (htag2 : isStopTag tag = false) :
    ∃ seg, SegOk cfg 1 1 st (step cfg tag id st) seg := by
  cases hso : cfg.stopAt with
  | none =>
      have hi : inject cfg st = st := inject_none hso st
      refine ⟨[(tag, st.sess)], ?_, ?_, ?_⟩
      · simp [step, hi]
      · intro hpast
        refine ⟨by simp [hasStopTag, htag2], by simp [opsIn, htag], ?_, ?_⟩
        · obtain ⟨⟨n, hsome, hlt⟩, _⟩ := hpast
          exact ⟨n, hsome, by rw [step_clock]; omega⟩
        · show (step cfg tag id st).sess.status ≠ Status.running
          rw [show (step cfg tag id st).sess = st.sess from by simp [step, hi]]
          exact hpast.2
      · intro hfut
        refine Or.inl ⟨by simp [hasStopTag, htag2], ?_⟩
        intro n hsome
        rw [hso] at hsome
        exact absurd hsome (by simp)
  | some n =>
      by_cases hc : st.clock = n
      · have hi := inject_hit hso hc
        refine ⟨[(Tag.stopW, stopUpdate st.sess), (tag, stopUpdate st.sess)], ?_, ?_, ?_⟩
        · simp [step, hi]
        · intro hpast
          obtain ⟨⟨n2, hsome, hlt⟩, _⟩ := hpast
          rw [hso] at hsome
          have := Option.some.inj hsome
          omega
        · intro _
          refine Or.inr ⟨by simp [hasStopTag, isStopTag], ?_, ?_, ?_⟩
          · rw [opsAfterStop, afterStop_cons_stop (by rfl)]
            simp [opsIn, htag]
          · exact ⟨n, hso, by rw [step_clock]; omega⟩
          · show (step cfg tag id st).sess.status ≠ Status.running
            rw [show (step cfg tag id st).sess = stopUpdate st.sess from by simp [step, hi]]
            exact stopUpdate_not_running st.sess
      · have hi := inject_miss hso hc
        refine ⟨[(tag, st.sess)], ?_, ?_, ?_⟩
        · simp [step, hi]
        · intro hpast
          obtain ⟨⟨n2, hsome, hlt⟩, hst⟩ := hpast
          refine ⟨by simp [hasStopTag, htag2], by simp [opsIn, htag], ?_, ?_⟩
          · exact ⟨n2, hsome, by rw [step_clock]; omega⟩
          · show (step cfg tag id st).sess.status ≠ Status.running
            rw [show (step cfg tag id st).sess = st.sess from by simp [step, hi]]
            exact hst
        · intro hfut
          refine Or.inl ⟨by simp [hasStopTag, htag2], ?_⟩
          intro n2 hsome
          rw [hso] at hsome
          have hn2 := Option.some.inj hsome
          have hle := hfut n hso
          rw [step_clock]
          omega

theorem segOk_checkStep (cfg : Config) (st : RState) :
    ∃ seg, SegOk cfg 0 0 st (checkStep cfg st).1 seg := by
  cases hso : cfg.stopAt with
  | none =>
      have hi : inject cfg st = st := inject_none hso st
      refine ⟨[(Tag.check (isSessionStopped st.sess), st.sess)], ?_, ?_, ?_⟩
      · simp [checkStep, hi]
      · intro hpast
        refine ⟨by simp [hasStopTag, isStopTag], by simp [opsIn, isOpTag], ?_, ?_⟩
        · obtain ⟨⟨n, hsome, hlt⟩, _⟩ := hpast
          exact ⟨n, hsome, by rw [checkStep_clock]; omega⟩
        · show (checkStep cfg st).1.sess.status ≠ Status.running
          rw [show (checkStep cfg st).1.sess = st.sess from by simp [checkStep, hi]]
          exact hpast.2
      · intro hfut
        refine Or.inl ⟨by simp [hasStopTag, isStopTag], ?_⟩
        intro n hsome
        rw [hso] at hsome
        exact absurd hsome (by simp)
  | some n =>
      by_cases hc : st.clock = n
      · have hi := inject_hit hso hc
        refine ⟨[(Tag.stopW, stopUpdate st.sess),
          (Tag.check (isSessionStopped (stopUpdate st.sess)), stopUpdate st.sess)], ?_, ?_, ?_⟩
        · simp [checkStep, hi]
        · intro hpast
          obtain ⟨⟨n2, hsome, hlt⟩, _⟩ := hpast
          rw [hso] at hsome
          have := Option.some.inj hsome
          omega
        · intro _
          refine Or.inr ⟨by simp [hasStopTag, isStopTag], ?_, ?_, ?_⟩
          · rw [opsAfterStop, afterStop_cons_stop (by rfl)]
            simp [opsIn, isOpTag]
          · exact ⟨n, hso, by rw [checkStep_clock]; omega⟩
          · show (checkStep cfg st).1.sess.status ≠ Status.running
            rw [show (checkStep cfg st).1.sess = stopUpdate st.sess from by
              simp [checkStep, hi]]
            exact stopUpdate_not_running st.sess
      · have hi := inject_miss hso hc
        refine ⟨[(Tag.check (isSessionStopped st.sess), st.sess)], ?_, ?_, ?_⟩
        · simp [checkStep, hi]
        · intro hpast
          obtain ⟨⟨n2, hsome, hlt⟩, hst⟩ := hpast
          refine ⟨by simp [hasStopTag, isStopTag], by simp [opsIn, isOpTag], ?_, ?_⟩
          · exact ⟨n2, hsome, by rw [checkStep_clock]; omega⟩
          · show (checkStep cfg st).1.sess.status ≠ Status.running
            rw [show (checkStep cfg st).1.sess = st.sess from by simp [checkStep, hi]]
            exact hst
        · intro hfut
          refine Or.inl ⟨by simp [hasStopTag, isStopTag], ?_⟩
          intro n2 hsome
          rw [hso] at hsome
          have hn2 := Option.some.inj hsome
          have hle := hfut n hso
          rw [checkStep_clock]
          omega

theorem segOk_logStep (cfg : Config) (m : String) (ty : LogType) (st : RState) :
    ∃ seg, SegOk cfg 0 0 st (logStep cfg m ty st) seg :=
  segOk_step_nonop cfg _ _ st rfl rfl (fun _ h => h)

theorem segOk_incStep (cfg : Config) (b : Bool) (st : RState) :
    ∃ seg, SegOk cfg 0 0 st (incStep cfg b st) seg :=
  segOk_step_nonop cfg _ _ st rfl rfl (fun s h => by cases b <;> simpa using h)

theorem segOk_jobStatusStep (cfg : Config) (u : String) (jst : JobStatus) (st : RState) :
    ∃ seg, SegOk cfg 0 0 st (jobStatusStep cfg u jst st) seg :=
  segOk_step_nonop cfg _ _ st rfl rfl (fun _ h => h)

theorem segOk_errorStep (cfg : Config) (m : String) (st : RState) :
    ∃ seg, SegOk cfg 0 0 st (errorStep cfg m st) seg := by
  simp only [errorStep]
  exact segOk_step_nonop cfg _ _ st rfl rfl (fun _ _ => by simp)

theorem segOk_appendJobsSteps (cfg : Config) (ls : List Listing) (st : RState) :
    ∃ seg, SegOk cfg 0 0 st (appendJobsSteps cfg ls st) seg := by
  simp only [appendJobsSteps]
  split
  · obtain ⟨s1, h1⟩ := segOk_step_nonop cfg (Tag.jobsW (newJobsOf st.sess ls).length)
      (fun s =>
        { s with jobs := s.jobs ++ (newJobsOf st.sess ls).map (fun l => { job := l, status := JobStatus.found }),
                 jobsFound := s.jobsFound + (newJobsOf st.sess ls).length }) st rfl rfl
      (fun _ h => h)
    obtain ⟨s2, h2⟩ := segOk_logStep cfg ("Found " ++ toString (newJobsOf st.sess ls).length
      ++ " new jobs") LogType.info _
    exact ⟨s1 ++ s2, (h1.comp h2).mono (by omega) (by omega)⟩
  · exact ⟨[], segOk_id cfg st⟩

theorem segOk_processJob (cfg : Config) (src : Source) (l : Listing) (st : RState) :
    ∃ seg, SegOk cfg 0 1 st (processJob cfg src l st) seg := by
  simp only [processJob]
  split
  · exact ⟨[], (segOk_id cfg st).mono (Nat.le_refl 0) (by omega)⟩
  · by_cases hc : (checkStep cfg st).2
    · rw [if_pos hc]
      obtain ⟨s1, h1⟩ := segOk_checkStep cfg st
      exact ⟨s1 ++ [], (h1.comp (segOk_brk cfg _ true)).mono (by omega) (by omega)⟩
    · rw [if_neg hc]
      have hnp : ¬ Past cfg st := fun hp => hc (by rw [checkStep_past hp])
      split
      · obtain ⟨s1, h1⟩ := segOk_checkStep cfg st
        obtain ⟨s2, h2⟩ := segOk_logStep cfg _ _ _
        exact ⟨s1 ++ s2, (h1.comp h2).mono (by omega) (by omega)⟩
      · obtain ⟨s1, h1⟩ := segOk_checkStep cfg st
        obtain ⟨s2, h2⟩ := segOk_logStep cfg _ _ _
        obtain ⟨s3, h3⟩ := segOk_op cfg (Tag.applyOp src l) _ rfl rfl
        split
        · obtain ⟨s4, h4⟩ := segOk_jobStatusStep cfg l.url JobStatus.applied _
          obtain ⟨s5, h5⟩ := segOk_logStep cfg _ _ _
          obtain ⟨s6, h6⟩ := segOk_incStep cfg true _
          refine ⟨s1 ++ s2 ++ s3 ++ s4 ++ s5 ++ s6, SegOk.ofNotPast
            ((((((h1.comp h2).comp h3).comp h4).comp h5).comp h6).mono (by omega) (by omega) :
              SegOk cfg 1 1 st _ _) hnp⟩
        · obtain ⟨s4, h4⟩ := segOk_jobStatusStep cfg l.url JobStatus.skipped _
          obtain ⟨s5, h5⟩ := segOk_logStep cfg _ _ _
          obtain ⟨s6, h6⟩ := segOk_incStep cfg false _
          refine ⟨s1 ++ s2 ++ s3 ++ s4 ++ s5 ++ s6, SegOk.ofNotPast
            ((((((h1.comp h2).comp h3).comp h4).comp h5).comp h6).mono (by omega) (by omega) :
              SegOk cfg 1 1 st _ _) hnp⟩
        · obtain ⟨s4, h4⟩ := segOk_jobStatusStep cfg l.url JobStatus.error _
          obtain ⟨s5, h5⟩ := segOk_logStep cfg _ _ _
          obtain ⟨s6, h6⟩ := segOk_incStep cfg false _
          refine ⟨s1 ++ s2 ++ s3 ++ s4 ++ s5 ++ s6, SegOk.ofNotPast
            ((((((h1.comp h2).comp h3).comp h4).comp h5).comp h6).mono (by omega) (by omega) :
              SegOk cfg 1 1 st _ _) hnp⟩

theorem segOk_jobsLoop (cfg : Config) (src : Source) (ls : List Listing) (st : RState) :
    ∃ seg, SegOk cfg 0 1 st (jobsLoop cfg src ls st) seg := by
  induction ls generalizing st with
  | nil => exact ⟨[], (segOk_id cfg st).mono (Nat.le_refl 0) (by omega)⟩
  | cons l ls ih =>
      obtain ⟨s1, h1⟩ := segOk_processJob cfg src l st
      obtain ⟨s2, h2⟩ := ih (processJob cfg src l st)
      exact ⟨s1 ++ s2, (h1.comp h2).mono (by omega) (by omega)⟩

theorem segOk_runPair (cfg : Config) (src : Source) (t loc : String) (st : RState) :
    ∃ seg, SegOk cfg 0 1 st (runPair cfg src t loc st) seg := by
  simp only [runPair]
  split
  · exact ⟨[], (segOk_id cfg st).mono (Nat.le_refl 0) (by omega)⟩
  · by_cases hc : (checkStep cfg st).2
    · rw [if_pos hc]
      obtain ⟨s1, h1⟩ := segOk_checkStep cfg st
      obtain ⟨s2, h2⟩ := segOk_logStep cfg _ _ _
      exact ⟨s1 ++ s2 ++ [], ((h1.comp h2).comp (segOk_brk cfg _ true)).mono
        (by omega) (by omega)⟩
    · rw [if_neg hc]
      have hnp : ¬ Past cfg st := fun hp => hc (by rw [checkStep_past hp])
      split
      · obtain ⟨s1, h1⟩ := segOk_checkStep cfg st
        obtain ⟨s2, h2⟩ := segOk_logStep cfg _ _ _
        obtain ⟨s3, h3⟩ := segOk_op cfg (Tag.searchOp src t loc) _ rfl rfl
        obtain ⟨s4, h4⟩ := segOk_logStep cfg _ _ _
        refine ⟨s1 ++ s2 ++ s3 ++ s4 ++ [], SegOk.ofNotPast
          (((((h1.comp h2).comp h3).comp h4).comp (segOk_brk cfg _ true)).mono
            (by omega) (by omega) : SegOk cfg 1 1 st _ _) hnp⟩
      · obtain ⟨s1, h1⟩ := segOk_checkStep cfg st
        obtain ⟨s2, h2⟩ := segOk_logStep cfg _ _ _
        obtain ⟨s3, h3⟩ := segOk_op cfg (Tag.searchOp src t loc) _ rfl rfl
        obtain ⟨s4, h4⟩ := segOk_appendJobsSteps cfg _ _
        obtain ⟨s5, h5⟩ := segOk_jobsLoop cfg src _ _
        refine ⟨s1 ++ s2 ++ s3 ++ s4 ++ s5, SegOk.ofNotPast
          ((((((h1.comp h2).comp h3).comp h4).comp h5).mono (by omega) (by omega)) :
            SegOk cfg 1 1 st _ _) hnp⟩

theorem segOk_runPairs (cfg : Config) (src : Source) (ps : List (String × String))
    (st : RState) : ∃ seg, SegOk cfg 0 1 st (runPairs cfg src ps st) seg := by
  induction ps generalizing st with
  | nil => exact ⟨[], (segOk_id cfg st).mono (Nat.le_refl 0) (by omega)⟩
  | cons p ps ih =>
      obtain ⟨s1, h1⟩ := segOk_runPair cfg src p.1 p.2 st
      obtain ⟨s2, h2⟩ := ih (runPair cfg src p.1 p.2 st)
      exact ⟨s1 ++ s2, (h1.comp h2).mono (by omega) (by omega)⟩

theorem segOk_searchSiteJobs (cfg : Config) (src : Source) (st : RState) :
    ∃ seg, SegOk cfg 0 1 st (searchSiteJobs cfg src st) seg := by
  simp only [searchSiteJobs]
  obtain ⟨s2, h2⟩ := segOk_logStep cfg ("Starting " ++ srcName src ++ " job search")
    LogType.info { st with brk := false }
  obtain ⟨s3, h3⟩ := segOk_runPairs cfg src (pairsOf cfg) _
  refine ⟨[] ++ s2 ++ s3 ++ [], ?_⟩
  exact ((((segOk_brk cfg st false).comp h2).comp h3).comp (segOk_brk cfg _ false)).mono
    (by omega) (by omega)

theorem segOk_run (cfg : Config) :
    ∃ seg, SegOk cfg 0 1 (initRState cfg) (startAutoApplyProcess cfg) seg := by
  simp only [startAutoApplyProcess]
  obtain ⟨s1, h1⟩ := segOk_logStep cfg "Initializing browser for job search" LogType.info
    (initRState cfg)
  split
  · obtain ⟨s2, h2⟩ := segOk_checkStep cfg _
    exact ⟨s1 ++ s2, (h1.comp h2).mono (by omega) (by omega)⟩
  · split
    · obtain ⟨s2, h2⟩ := segOk_checkStep cfg _
      obtain ⟨s3, h3⟩ := segOk_errorStep cfg
        "User profile not found. Please complete your profile before auto-applying." _
      exact ⟨s1 ++ s2 ++ s3, ((h1.comp h2).comp h3).mono (by omega) (by omega)⟩
    · obtain ⟨s2, h2⟩ := segOk_checkStep cfg _
      obtain ⟨s3, h3⟩ := segOk_searchSiteJobs cfg Source.linkedin _
      obtain ⟨s4, h4⟩ := segOk_searchSiteJobs cfg Source.indeed _
      obtain ⟨s5, h5⟩ := segOk_step_nonop cfg (Tag.statusW Status.completed)
        (fun s => { s with status := Status.completed,
                           logs := s.logs ++
                             [{ message := "Auto-apply session completed", type := LogType.info }] })
        _ rfl rfl (fun _ _ => by simp)
      exact ⟨s1 ++ s2 ++ s3 ++ s4 ++ s5,
        ((((h1.comp h2).comp h3).comp h4).comp h5).mono (by omega) (by omega)⟩

/-- Claim C6: in every run, whatever the instant (if any) at which a
concurrent stop request is persisted, at most one adapter search/apply
operation occurs in the trace after the persisted stop: the cancellation
check preceding every search and every per-job application attempt
prevents any later operation from starting. -/
theorem c6_cancellation_bound (cfg : Config) :
    opsAfterStop (startAutoApplyProcess cfg).trace ≤ 1 := by
  obtain ⟨seg, htr, hpa, hfu⟩ := segOk_run cfg
  have hFut : Fut cfg (initRState cfg) := fun n _ => Nat.zero_le n
  have htrace : (startAutoApplyProcess cfg).trace = seg := by
    rw [htr]
    simp [initRState]
  rcases hfu hFut with ⟨hs, _⟩ | ⟨_, ho, _⟩
  · rw [htrace, opsAfterStop, afterStop_of_no_stop hs]
    simp [opsIn]
  · rw [htrace]
    exact ho

/-! ## Counter and per-job-write invariants (the amended C5) -/

/-- Sum of the two application counters. -/
def sumC (s : Session) : Nat := s.applicationsSubmitted + s.applicationsSkipped

/-- Array-length consistency: `jobsFound` equals the length of `jobs`. -/
def Ainv (s : Session) : Prop := s.jobsFound = s.jobs.length

/-- Counter consistency: the application counters never exceed `jobsFound`. -/
def Binv (s : Session) : Prop := sumC s ≤ s.jobsFound

/-- Every listing either site driver scrapes over the whole run, in run
order. -/
def allListings (cfg : Config) : List Listing :=
  [Source.linkedin, Source.indeed].flatMap
    (fun src => (pairsOf cfg).flatMap (fun p => batchOf cfg src p.1 p.2))

/-- The URLs that the given (title, location) pairs of one driver will
scrape. -/
def pairUrls (cfg : Config) (src : Source) (ps : List (String × String)) : List String :=
  ps.flatMap (fun p => (batchOf cfg src p.1 p.2).map (fun l => l.url))

/-- A session predicate holding at the current document and at every
snapshot in the trace. -/
def HoldsAll (P : Session → Prop) (st : RState) : Prop :=
  P st.sess ∧ ∀ e ∈ st.trace, P e.2

theorem holdsAll_brk {P : Session → Prop} {st : RState} (h : HoldsAll P st) (b : Bool) :
    HoldsAll P { st with brk := b } := h

theorem holdsAll_step {P : Session → Prop} {cfg : Config} {tag : Tag}
    {f : Session → Session} {st : RState}
    (hstop : ∀ s, P s → P (stopUpdate s)) (hf : ∀ s, P s → P (f s))
    (h : HoldsAll P st) : HoldsAll P (step cfg tag f st) := by
  obtain ⟨hs, ht⟩ := h
  rcases inject_cases cfg st with hi | hi
  · refine ⟨?_, ?_⟩
    · show P (step cfg tag f st).sess
      simp only [step, hi]
      exact hf _ hs
    · intro e he
      simp only [step, hi] at he
      simp only [List.mem_append, List.mem_singleton] at he
      rcases he with he | he
      · exact ht e he
      · subst he
        exact hf _ hs
  · refine ⟨?_, ?_⟩
    · show P (step cfg tag f st).sess
      simp only [step, hi]
      exact hf _ (hstop _ hs)
    · intro e he
      simp only [step, hi] at he
      simp only [List.append_assoc, List.mem_append, List.mem_singleton] at he
      rcases he with he | he | he
      · exact ht e he
      · subst he
        exact hstop _ hs
      · subst he
        exact hf _ (hstop _ hs)

theorem holdsAll_checkStep {P : Session → Prop} {cfg : Config} {st : RState}
    (hstop : ∀ s, P s → P (stopUpdate s)) (h : HoldsAll P st) :
    HoldsAll P (checkStep cfg st).1 := by
  obtain ⟨hs, ht⟩ := h
  rcases inject_cases cfg st with hi | hi
  · refine ⟨?_, ?_⟩
    · show P (checkStep cfg st).1.sess
      simp only [checkStep, hi]
      exact hs
    · intro e he
      simp only [checkStep, hi] at he
      simp only [List.mem_append, List.mem_singleton] at he
      rcases he with he | he
      · exact ht e he
      · subst he
        exact hs
  · refine ⟨?_, ?_⟩
    · show P (checkStep cfg st).1.sess
      simp only [checkStep, hi]
      exact hstop _ hs
    · intro e he
      simp only [checkStep, hi] at he
      simp only [List.append_assoc, List.mem_append, List.mem_singleton] at he
      rcases he with he | he | he
      · exact ht e he
      · subst he
        exact hstop _ hs
      · subst he
        exact hstop _ hs

theorem ainv_stopUpdate : ∀ s, Ainv s → Ainv (stopUpdate s) := by
  intro s h
  obtain ⟨_, _, hjf, hjobs⟩ := stopUpdate_counters s
  unfold Ainv at *
  rw [hjf, hjobs]
  exact h

theorem setJobStatus_length (js : List FoundJob) (u : String) (stt : JobStatus) :
    (setJobStatus js u stt).length = js.length := by
  induction js with
  | nil => rfl
  | cons j js ih =>
      simp only [setJobStatus]
      split <;> simp [ih]

theorem ainv_logStep {cfg : Config} {m : String} {ty : LogType} {st : RState}
    (h : HoldsAll Ainv st) : HoldsAll Ainv (logStep cfg m ty st) :=
  holdsAll_step ainv_stopUpdate (fun s hp => by simpa [Ainv] using hp) h

theorem ainv_opStep {cfg : Config} {tag : Tag} {st : RState}
    (h : HoldsAll Ainv st) : HoldsAll Ainv (opStep cfg tag st) :=
  holdsAll_step ainv_stopUpdate (fun _ hp => hp) h

theorem ainv_incStep {cfg : Config} {b : Bool} {st : RState}
    (h : HoldsAll Ainv st) : HoldsAll Ainv (incStep cfg b st) :=
  holdsAll_step ainv_stopUpdate
    (fun s hp => by cases b <;> simpa [Ainv] using hp) h

theorem ainv_jobStatusStep {cfg : Config} {u : String} {jst : JobStatus} {st : RState}
    (h : HoldsAll Ainv st) : HoldsAll Ainv (jobStatusStep cfg u jst st) :=
  holdsAll_step ainv_stopUpdate
    (fun s hp => by simpa [Ainv, setJobStatus_length] using hp) h

theorem ainv_checkStep {cfg : Config} {st : RState}
    (h : HoldsAll Ainv st) : HoldsAll Ainv (checkStep cfg st).1 :=
  holdsAll_checkStep ainv_stopUpdate h

theorem ainv_errorStep {cfg : Config} {m : String} {st : RState}
    (h : HoldsAll Ainv st) : HoldsAll Ainv (errorStep cfg m st) :=
  holdsAll_step ainv_stopUpdate (fun s hp => by simpa [Ainv] using hp) h

theorem ainv_appendJobsSteps {cfg : Config} {ls : List Listing} {st : RState}
    (h : HoldsAll Ainv st) : HoldsAll Ainv (appendJobsSteps cfg ls st) := by
  simp only [appendJobsSteps]
  split
  · exact ainv_logStep (holdsAll_step ainv_stopUpdate
      (fun s hp => by simp [Ainv] at hp ⊢; omega) h)
  · exact h

theorem ainv_processJob (cfg : Config) (src : Source) (l : Listing) {st : RState}
    (h : HoldsAll Ainv st) : HoldsAll Ainv (processJob cfg src l st) := by
  simp only [processJob]
  split
  · exact h
  · split
    · exact holdsAll_brk (ainv_checkStep h) true
    · split
      · exact ainv_logStep (ainv_checkStep h)
      · split
        · exact ainv_incStep (ainv_logStep (ainv_jobStatusStep
            (ainv_opStep (ainv_logStep (ainv_checkStep h)))))
        · exact ainv_incStep (ainv_logStep (ainv_jobStatusStep
            (ainv_opStep (ainv_logStep (ainv_checkStep h)))))
        · exact ainv_incStep (ainv_logStep (ainv_jobStatusStep
            (ainv_opStep (ainv_logStep (ainv_checkStep h)))))

theorem ainv_jobsLoop (cfg : Config) (src : Source) (ls : List Listing) {st : RState}
    (h : HoldsAll Ainv st) : HoldsAll Ainv (jobsLoop cfg src ls st) := by
  induction ls generalizing st with
  | nil => exact h
  | cons l ls ih => exact ih (ainv_processJob cfg src l h)

theorem ainv_runPair (cfg : Config) (src : Source) (t loc : String) {st : RState}
    (h : HoldsAll Ainv st) : HoldsAll Ainv (runPair cfg src t loc st) := by
  simp only [runPair]
  split
  · exact h
  · split
    · exact holdsAll_brk (ainv_logStep (ainv_checkStep h)) true
    · split
      · exact holdsAll_brk (ainv_logStep
          (ainv_opStep (ainv_logStep (ainv_checkStep h)))) true
      · exact ainv_jobsLoop cfg src _ (ainv_appendJobsSteps
          (ainv_opStep (ainv_logStep (ainv_checkStep h))))

theorem ainv_runPairs (cfg : Config) (src : Source) (ps : List (String × String))
    {st : RState} (h : HoldsAll Ainv st) : HoldsAll Ainv (runPairs cfg src ps st) := by
  induction ps generalizing st with
  | nil => exact h
  | cons p ps ih => exact ih (ainv_runPair cfg src p.1 p.2 h)

theorem ainv_searchSiteJobs (cfg : Config) (src : Source) {st : RState}
    (h : HoldsAll Ainv st) : HoldsAll Ainv (searchSiteJobs cfg src st) := by
  simp only [searchSiteJobs]
  exact holdsAll_brk (ainv_runPairs cfg src _ (ainv_logStep (holdsAll_brk h false))) false

theorem ainv_init (cfg : Config) : HoldsAll Ainv (initRState cfg) := by
  refine ⟨?_, ?_⟩
  · simp [Ainv, initRState, Config.initSession, freshSession]
  · intro e he
    simp [initRState] at he

theorem ainv_run (cfg : Config) : HoldsAll Ainv (startAutoApplyProcess cfg) := by
  simp only [startAutoApplyProcess]
  have h0 : HoldsAll Ainv
      (logStep cfg "Initializing browser for job search" LogType.info (initRState cfg)) :=
    ainv_logStep (ainv_init cfg)
  split
  · exact ainv_checkStep h0
  · split
    · exact ainv_errorStep (ainv_checkStep h0)
    · exact holdsAll_step ainv_stopUpdate (fun s hp => by simpa [Ainv] using hp)
        (ainv_searchSiteJobs cfg Source.indeed
          (ainv_searchSiteJobs cfg Source.linkedin (ainv_checkStep h0)))

/-- Invariant of an in-flight run: every snapshot so far is
counter-consistent, `k` further counter increments are still covered by
`jobsFound`, and no URL already stored in the document is ever scraped
again (`F` lists the still-to-be-scraped URLs). -/
def JInv (F : List String) (k : Nat) (st : RState) : Prop :=
  (∀ e ∈ st.trace, Binv e.2) ∧
  sumC st.sess + k ≤ st.sess.jobsFound ∧
  ∀ u ∈ jurls st.sess, u ∉ F

theorem stopUpdate_sumC (s : Session) :
    sumC (stopUpdate s) = sumC s ∧ (stopUpdate s).jobsFound = s.jobsFound ∧
    jurls (stopUpdate s) = jurls s := by
  obtain ⟨h1, h2, h3, h4⟩ := stopUpdate_counters s
  exact ⟨by simp [sumC, h1, h2], h3, by simp [jurls, h4]⟩

theorem setJobStatus_urls (js : List FoundJob) (u : String) (stt : JobStatus) :
    (setJobStatus js u stt).map (fun j => j.job.url) = js.map (fun j => j.job.url) := by
  induction js with
  | nil => rfl
  | cons j js ih =>
      simp only [setJobStatus]
      split <;> simp [ih]

theorem jinv_brk {F : List String} {k : Nat} {st : RState} (h : JInv F k st) (b : Bool) :
    JInv F k { st with brk := b } := h

theorem jinv_mono {F F' : List String} {k k' : Nat} {st : RState}
    (hsub : ∀ u, u ∈ F' → u ∈ F) (hk : k' ≤ k) (h : JInv F k st) : JInv F' k' st :=
  ⟨h.1, by have := h.2.1; omega, fun u hu hmem => h.2.2 u hu (hsub u hmem)⟩

theorem jinv_step_pres {cfg : Config} {tag : Tag} {f : Session → Session}
    {F : List String} {k : Nat} {st : RState}
    (hf : ∀ s, sumC (f s) = sumC s ∧ (f s).jobsFound = s.jobsFound ∧ jurls (f s) = jurls s)
    (h : JInv F k st) : JInv F k (step cfg tag f st) := by
  obtain ⟨ht, hsum, hj⟩ := h
  rcases inject_cases cfg st with hi | hi
  · refine ⟨?_, ?_, ?_⟩
    · intro e he
      simp only [step, hi] at he
      simp only [List.mem_append, List.mem_singleton] at he
      rcases he with he | he
      · exact ht e he
      · subst he
        show Binv (f st.sess)
        unfold Binv
        rw [(hf st.sess).1, (hf st.sess).2.1]
        omega
    · show sumC (step cfg tag f st).sess + k ≤ (step cfg tag f st).sess.jobsFound
      simp only [step, hi]
      rw [(hf st.sess).1, (hf st.sess).2.1]
      exact hsum
    · intro u hu
      have : jurls (step cfg tag f st).sess = jurls st.sess := by
        simp only [step, hi]
        exact (hf st.sess).2.2
      rw [this] at hu
      exact hj u hu
  · refine ⟨?_, ?_, ?_⟩
    · intro e he
      simp only [step, hi] at he
      simp only [List.append_assoc, List.mem_append, List.mem_singleton] at he
      rcases he with he | he | he
      · exact ht e he
      · subst he
        show Binv (stopUpdate st.sess)
        unfold Binv
        rw [(stopUpdate_sumC st.sess).1, (stopUpdate_sumC st.sess).2.1]
        omega
      · subst he
        show Binv (f (stopUpdate st.sess))
        unfold Binv
        rw [(hf _).1, (hf _).2.1, (stopUpdate_sumC st.sess).1,
          (stopUpdate_sumC st.sess).2.1]
        omega
    · show sumC (step cfg tag f st).sess + k ≤ (step cfg tag f st).sess.jobsFound
      simp only [step, hi]
      rw [(hf _).1, (hf _).2.1, (stopUpdate_sumC st.sess).1, (stopUpdate_sumC st.sess).2.1]
      exact hsum
    · intro u hu
      have : jurls (step cfg tag f st).sess = jurls st.sess := by
        simp only [step, hi]
        rw [(hf _).2.2, (stopUpdate_sumC st.sess).2.2]
      rw [this] at hu
      exact hj u hu

theorem jinv_logStep {cfg : Config} {m : String} {ty : LogType} {F : List String} {k : Nat}
    {st : RState} (h : JInv F k st) : JInv F k (logStep cfg m ty st) :=
  jinv_step_pres (fun _ => ⟨rfl, rfl, rfl⟩) h

theorem jinv_opStep {cfg : Config} {tag : Tag} {F : List String} {k : Nat}
    {st : RState} (h : JInv F k st) : JInv F k (opStep cfg tag st) :=
  jinv_step_pres (fun _ => ⟨rfl, rfl, rfl⟩) h

theorem jinv_jobStatusStep {cfg : Config} {u : String} {jst : JobStatus} {F : List String}
    {k : Nat} {st : RState} (h : JInv F k st) : JInv F k (jobStatusStep cfg u jst st) :=
  jinv_step_pres (fun s => ⟨rfl, rfl, by simp [jurls, setJobStatus_urls]⟩) h

theorem jinv_errorStep {cfg : Config} {m : String} {F : List String} {k : Nat}
    {st : RState} (h : JInv F k st) : JInv F k (errorStep cfg m st) :=
  jinv_step_pres (fun _ => ⟨rfl, rfl, rfl⟩) h

theorem jinv_incStep {cfg : Config} {b : Bool} {F : List String} {k : Nat} {st : RState}
    (h : JInv F (k + 1) st) : JInv F k (incStep cfg b st) := by
  obtain ⟨ht, hsum, hj⟩ := h
  have hf : ∀ s : Session,
      sumC ((fun s : Session =>
        if b then { s with applicationsSubmitted := s.applicationsSubmitted + 1 }
        else { s with applicationsSkipped := s.applicationsSkipped + 1 }) s) = sumC s + 1 ∧
      ((fun s : Session =>
        if b then { s with applicationsSubmitted := s.applicationsSubmitted + 1 }
        else { s with applicationsSkipped := s.applicationsSkipped + 1 }) s).jobsFound
          = s.jobsFound ∧
      jurls ((fun s : Session =>
        if b then { s with applicationsSubmitted := s.applicationsSubmitted + 1 }
        else { s with applicationsSkipped := s.applicationsSkipped + 1 }) s) = jurls s := by
    intro s
    cases b <;> exact ⟨by simp [sumC]; omega, rfl, rfl⟩
  rcases inject_cases cfg st with hi | hi
  · refine ⟨?_, ?_, ?_⟩
    · intro e he
      simp only [incStep, step, hi] at he
      simp only [List.mem_append, List.mem_singleton] at he
      rcases he with he | he
      · exact ht e he
      · subst he
        show Binv _
        unfold Binv
        rw [(hf st.sess).1, (hf st.sess).2.1]
        omega
    · show sumC (incStep cfg b st).sess + k ≤ (incStep cfg b st).sess.jobsFound
      simp only [incStep, step, hi]
      rw [(hf st.sess).1, (hf st.sess).2.1]
      omega
    · intro u hu
      have : jurls (incStep cfg b st).sess = jurls st.sess := by
        simp only [incStep, step, hi]
        exact (hf st.sess).2.2
      rw [this] at hu
      exact hj u hu
  · refine ⟨?_, ?_, ?_⟩
    · intro e he
      simp only [incStep, step, hi] at he
      simp only [List.append_assoc, List.mem_append, List.mem_singleton] at he
      rcases he with he | he | he
      · exact ht e he
      · subst he
        show Binv (stopUpdate st.sess)
        unfold Binv
        rw [(stopUpdate_sumC st.sess).1, (stopUpdate_sumC st.sess).2.1]
        omega
      · subst he
        show Binv _
        unfold Binv
        rw [(hf _).1, (hf _).2.1, (stopUpdate_sumC st.sess).1, (stopUpdate_sumC st.sess).2.1]
        omega
    · show sumC (incStep cfg b st).sess + k ≤ (incStep cfg b st).sess.jobsFound
      simp only [incStep, step, hi]
      rw [(hf _).1, (hf _).2.1, (stopUpdate_sumC st.sess).1, (stopUpdate_sumC st.sess).2.1]
      omega
    · intro u hu
      have : jurls (incStep cfg b st).sess = jurls st.sess := by
        simp only [incStep, step, hi]
        rw [(hf _).2.2, (stopUpdate_sumC st.sess).2.2]
      rw [this] at hu
      exact hj u hu

theorem jinv_checkStep {cfg : Config} {F : List String} {k : Nat} {st : RState}
    (h : JInv F k st) : JInv F k (checkStep cfg st).1 := by
  obtain ⟨ht, hsum, hj⟩ := h
  rcases inject_cases cfg st with hi | hi
  · refine ⟨?_, ?_, ?_⟩
    · intro e he
      simp only [checkStep, hi] at he
      simp only [List.mem_append, List.mem_singleton] at he
      rcases he with he | he
      · exact ht e he
      · subst he
        show Binv st.sess
        unfold Binv
        omega
    · show sumC (checkStep cfg st).1.sess + k ≤ (checkStep cfg st).1.sess.jobsFound
      simp only [checkStep, hi]
      exact hsum
    · intro u hu
      have : jurls (checkStep cfg st).1.sess = jurls st.sess := by
        simp only [checkStep, hi]
      rw [this] at hu
      exact hj u hu
  · refine ⟨?_, ?_, ?_⟩
    · intro e he
      simp only [checkStep, hi] at he
      simp only [List.append_assoc, List.mem_append, List.mem_singleton] at he
      rcases he with he | he | he
      · exact ht e he
      · subst he
        show Binv (stopUpdate st.sess)
        unfold Binv
        rw [(stopUpdate_sumC st.sess).1, (stopUpdate_sumC st.sess).2.1]
        omega
      · subst he
        show Binv (stopUpdate st.sess)
        unfold Binv
        rw [(stopUpdate_sumC st.sess).1, (stopUpdate_sumC st.sess).2.1]
        omega
    · show sumC (checkStep cfg st).1.sess + k ≤ (checkStep cfg st).1.sess.jobsFound
      simp only [checkStep, hi]
      rw [(stopUpdate_sumC st.sess).1, (stopUpdate_sumC st.sess).2.1]
      exact hsum
    · intro u hu
      have : jurls (checkStep cfg st).1.sess = jurls st.sess := by
        simp only [checkStep, hi]
        rw [(stopUpdate_sumC st.sess).2.2]
      rw [this] at hu
      exact hj u hu

theorem jinv_jobsW {cfg : Config} {F' : List String} {ls : List Listing} {st : RState}
    (hdisj : ∀ u ∈ ls.map (fun l => l.url), u ∉ F')
    (h : JInv (ls.map (fun l => l.url) ++ F') 0 st) :
    JInv F' ls.length
      (step cfg (Tag.jobsW ls.length)
        (fun s =>
          { s with jobs := s.jobs ++ ls.map (fun l => { job := l, status := JobStatus.found }),
                   jobsFound := s.jobsFound + ls.length }) st) := by
  obtain ⟨ht, hsum, hj⟩ := h
  simp only [sumC] at hsum
  have hjout : ∀ u, u ∈ jurls st.sess ∨ u ∈ ls.map (fun l => l.url) → u ∉ F' := by
    intro u hu hmem
    rcases hu with h1 | h1
    · exact hj u h1 (List.mem_append_right _ hmem)
    · exact hdisj u h1 hmem
  rcases inject_cases cfg st with hi | hi
  · refine ⟨?_, ?_, ?_⟩
    · intro e he
      simp only [step, hi] at he
      simp only [List.mem_append, List.mem_singleton] at he
      rcases he with he | he
      · exact ht e he
      · subst he
        show Binv _
        simp only [Binv, sumC]
        omega
    · simp only [step, hi, sumC]
      omega
    · intro u hu
      simp only [step, hi, jurls, List.map_append, List.map_map, List.mem_append] at hu
      refine hjout u ?_
      rcases hu with h1 | h1
      · exact Or.inl h1
      · refine Or.inr ?_
        simpa using h1
  · obtain ⟨hc1, hc2, hc3, hc4⟩ := stopUpdate_counters st.sess
    refine ⟨?_, ?_, ?_⟩
    · intro e he
      simp only [step, hi] at he
      simp only [List.append_assoc, List.mem_append, List.mem_singleton] at he
      rcases he with he | he | he
      · exact ht e he
      · subst he
        show Binv (stopUpdate st.sess)
        simp only [Binv, sumC, hc1, hc2, hc3]
        omega
      · subst he
        show Binv _
        simp only [Binv, sumC]
        simp only [hc1, hc2, hc3]
        omega
    · simp only [step, hi, sumC, hc1, hc2, hc3]
      omega
    · intro u hu
      simp only [step, hi, jurls, hc4, List.map_append, List.map_map, List.mem_append] at hu
      refine hjout u ?_
      rcases hu with h1 | h1
      · exact Or.inl h1
      · refine Or.inr ?_
        simpa using h1

theorem jinv_appendJobsSteps {cfg : Config} {F' : List String} {ls : List Listing}
    {st : RState} (hdisj : ∀ u ∈ ls.map (fun l => l.url), u ∉ F')
    (h : JInv (ls.map (fun l => l.url) ++ F') 0 st) :
    JInv F' ls.length (appendJobsSteps cfg ls st) := by
  have hfresh : newJobsOf st.sess ls = ls := by
    unfold newJobsOf
    refine List.filter_eq_self.mpr ?_
    intro l hl
    have hnm : l.url ∉ jurls st.sess := fun hmem =>
      h.2.2 l.url hmem
        (List.mem_append_left _ (List.mem_map_of_mem (fun l => l.url) hl))
    simp
    intro x hx hxe
    refine hnm ?_
    rw [← hxe]
    exact List.mem_map_of_mem (fun j => j.job.url) hx
  simp only [appendJobsSteps, hfresh]
  split
  · exact jinv_logStep (jinv_jobsW hdisj h)
  · rename_i hlen
    have hz : ls.length = 0 := by omega
    rw [hz]
    have hls : ls = [] := List.length_eq_zero.mp hz
    subst hls
    exact jinv_mono (fun u hu => List.mem_append_right _ hu) (Nat.le_refl 0) h

theorem jinv_processJob {cfg : Config} {src : Source} {F : List String} {k : Nat}
    (l : Listing) {st : RState} (h : JInv F (k + 1) st) :
    JInv F k (processJob cfg src l st) := by
  have hw : ∀ {st' : RState}, JInv F (k + 1) st' → JInv F k st' :=
    fun h' => jinv_mono (fun _ hu => hu) (by omega) h'
  simp only [processJob]
  split
  · exact hw h
  · split
    · exact jinv_brk (hw (jinv_checkStep h)) true
    · split
      · exact hw (jinv_logStep (jinv_checkStep h))
      · split
        · exact jinv_incStep (jinv_logStep (jinv_jobStatusStep
            (jinv_opStep (jinv_logStep (jinv_checkStep h)))))
        · exact jinv_incStep (jinv_logStep (jinv_jobStatusStep
            (jinv_opStep (jinv_logStep (jinv_checkStep h)))))
        · exact jinv_incStep (jinv_logStep (jinv_jobStatusStep
            (jinv_opStep (jinv_logStep (jinv_checkStep h)))))

theorem jinv_jobsLoop {cfg : Config} {src : Source} {F : List String} (ls : List Listing)
    {st : RState} (h : JInv F ls.length st) : JInv F 0 (jobsLoop cfg src ls st) := by
  induction ls generalizing st with
  | nil => exact h
  | cons l ls ih =>
      exact ih (jinv_processJob l (by simpa using h))

theorem jinv_runPair {cfg : Config} {src : Source} {F' : List String} (t loc : String)
    {st : RState}
    (hdisj : ∀ u ∈ (batchOf cfg src t loc).map (fun l => l.url), u ∉ F')
    (h : JInv ((batchOf cfg src t loc).map (fun l => l.url) ++ F') 0 st) :
    JInv F' 0 (runPair cfg src t loc st) := by
  have hsub : ∀ u, u ∈ F' → u ∈ (batchOf cfg src t loc).map (fun l => l.url) ++ F' :=
    fun u hu => List.mem_append_right _ hu
  simp only [runPair]
  split
  · exact jinv_mono hsub (Nat.le_refl 0) h
  · split
    · exact jinv_brk (jinv_mono hsub (Nat.le_refl 0)
        (jinv_logStep (jinv_checkStep h))) true
    · split
      · exact jinv_brk (jinv_mono hsub (Nat.le_refl 0)
          (jinv_logStep (jinv_opStep (jinv_logStep (jinv_checkStep h))))) true
      · rename_i ls heq
        have hbatch : batchOf cfg src t loc = ls := by
          simp [batchOf, heq]
        rw [hbatch] at hdisj h
        exact jinv_jobsLoop ls (jinv_appendJobsSteps hdisj
          (jinv_opStep (jinv_logStep (jinv_checkStep h))))

theorem jinv_runPairs {cfg : Config} {src : Source} (G : List String) :
    ∀ (ps : List (String × String)) {st : RState},
      (pairUrls cfg src ps ++ G).Nodup → JInv (pairUrls cfg src ps ++ G) 0 st →
      JInv G 0 (runPairs cfg src ps st) := by
  intro ps
  induction ps with
  | nil =>
      intro st hnd h
      simpa [pairUrls] using h
  | cons p ps ih =>
      intro st hnd h
      have hdec : pairUrls cfg src (p :: ps)
          = (batchOf cfg src p.1 p.2).map (fun l => l.url) ++ pairUrls cfg src ps := by
        simp [pairUrls]
      rw [hdec, List.append_assoc] at hnd h
      have hdisj : ∀ u ∈ (batchOf cfg src p.1 p.2).map (fun l => l.url),
          u ∉ pairUrls cfg src ps ++ G :=
        fun u hu => (List.disjoint_of_nodup_append hnd) hu
      exact ih (hnd.of_append_right) (jinv_runPair p.1 p.2 hdisj h)

theorem jinv_searchSiteJobs {cfg : Config} {src : Source} {G : List String} {st : RState}
    (hnd : (pairUrls cfg src (pairsOf cfg) ++ G).Nodup)
    (h : JInv (pairUrls cfg src (pairsOf cfg) ++ G) 0 st) :
    JInv G 0 (searchSiteJobs cfg src st) := by
  simp only [searchSiteJobs]
  exact jinv_brk (jinv_runPairs G (pairsOf cfg) hnd (jinv_logStep (jinv_brk h false))) false

theorem map_url_flatMap {α : Type} (g : α → List Listing) (ps : List α) :
    (ps.flatMap g).map (fun l => l.url)
      = ps.flatMap (fun p => (g p).map (fun l => l.url)) := by
  induction ps with
  | nil => rfl
  | cons p ps ih =>
      simp only [List.flatMap_cons, List.map_append, ih]

theorem allUrls_decomp (cfg : Config) :
    (allListings cfg).map (fun l => l.url)
      = pairUrls cfg Source.linkedin (pairsOf cfg)
        ++ (pairUrls cfg Source.indeed (pairsOf cfg) ++ []) := by
  simp only [allListings, pairUrls, List.flatMap_cons, List.flatMap_nil, List.map_append,
    List.append_nil, map_url_flatMap]

theorem jinv_run (cfg : Config)
    (hnd : ((allListings cfg).map (fun l => l.url)).Nodup) :
    JInv [] 0 (startAutoApplyProcess cfg) := by
  rw [allUrls_decomp] at hnd
  have h0 : JInv (pairUrls cfg Source.linkedin (pairsOf cfg)
      ++ (pairUrls cfg Source.indeed (pairsOf cfg) ++ [])) 0 (initRState cfg) := by
    refine ⟨?_, ?_, ?_⟩
    · intro e he
      simp [initRState] at he
    · simp [initRState, Config.initSession, freshSession, sumC]
    · intro u hu
      simp [initRState, Config.initSession, freshSession, jurls] at hu
  have hnil : ∀ u : String, u ∈ ([] : List String) →
      u ∈ pairUrls cfg Source.linkedin (pairsOf cfg)
        ++ (pairUrls cfg Source.indeed (pairsOf cfg) ++ []) :=
    fun u hu => (List.not_mem_nil u hu).elim
  simp only [startAutoApplyProcess]
  split
  · exact jinv_mono hnil (Nat.le_refl 0) (jinv_checkStep (jinv_logStep h0))
  · split
    · exact jinv_mono hnil (Nat.le_refl 0)
        (jinv_errorStep (jinv_checkStep (jinv_logStep h0)))
    · have h1 : JInv (pairUrls cfg Source.linkedin (pairsOf cfg)
          ++ (pairUrls cfg Source.indeed (pairsOf cfg) ++ [])) 0
          (checkStep cfg (logStep cfg "Initializing browser for job search" LogType.info
            (initRState cfg))).1 :=
        jinv_checkStep (jinv_logStep h0)
      have h2 := jinv_searchSiteJobs hnd h1
      have h3 := jinv_searchSiteJobs (hnd.of_append_right) h2
      exact jinv_step_pres (fun _ => ⟨rfl, rfl, rfl⟩) h3

/-- Occurrences of one URL in a list of URLs. -/
def urlCount (u : String) : List String → Nat
  | [] => 0
  | v :: vs => (if v = u then 1 else 0) + urlCount u vs

theorem urlCount_append (u : String) (a b : List String) :
    urlCount u (a ++ b) = urlCount u a + urlCount u b := by
  induction a with
  | nil => simp [urlCount]
  | cons v vs ih =>
      by_cases hv : v = u <;> simp [urlCount, hv, ih, List.append_eq] <;> omega

theorem urlCount_eq_zero_of_not_mem {u : String} {l : List String} (h : u ∉ l) :
    urlCount u l = 0 := by
  induction l with
  | nil => rfl
  | cons v vs ih =>
      have hv : ¬ v = u := fun he => h (he ▸ List.mem_cons_self v vs)
      have hvs : u ∉ vs := fun hm => h (List.mem_cons_of_mem v hm)
      simp [urlCount, hv, ih hvs]

theorem urlCount_le_one_of_nodup {l : List String} (h : l.Nodup) (u : String) :
    urlCount u l ≤ 1 := by
  induction l with
  | nil => simp [urlCount]
  | cons v vs ih =>
      rw [List.nodup_cons] at h
      by_cases hv : v = u
      · subst hv
        rw [show urlCount v (v :: vs) = 1 + urlCount v vs from by simp [urlCount],
          urlCount_eq_zero_of_not_mem h.1]
      · simp only [urlCount, hv, if_neg hv]
        simpa using ih h.2

theorem countJobW_append (u : String) (a b : List Entry) :
    countJobW u (a ++ b) = countJobW u a + countJobW u b := by
  simp [countJobW, List.filter_append]

theorem countJobW_single_non (u : String) (tag : Tag) (s : Session)
    (h : ∀ v stt, tag ≠ Tag.jobW v stt) : countJobW u [(tag, s)] = 0 := by
  cases tag
  case jobW v stt => exact absurd rfl (h v stt)
  all_goals rfl

theorem countJobW_inject (u : String) (cfg : Config) (st : RState) :
    countJobW u (inject cfg st).trace = countJobW u st.trace := by
  rcases inject_cases cfg st with hi | hi <;> rw [hi]
  show countJobW u (st.trace ++ [(Tag.stopW, stopUpdate st.sess)]) = countJobW u st.trace
  rw [countJobW_append, countJobW_single_non u Tag.stopW _ (fun v stt h => Tag.noConfusion h)]
  omega

theorem countJobW_step (u : String) (cfg : Config) (tag : Tag) (f : Session → Session)
    (st : RState) (h : ∀ v stt, tag ≠ Tag.jobW v stt) :
    countJobW u (step cfg tag f st).trace = countJobW u st.trace := by
  show countJobW u ((inject cfg st).trace ++ [(tag, f (inject cfg st).sess)])
    = countJobW u st.trace
  rw [countJobW_append, countJobW_single_non u tag _ h, countJobW_inject]
  omega

theorem countJobW_logStep (u : String) (cfg : Config) (m : String) (ty : LogType)
    (st : RState) :
    countJobW u (logStep cfg m ty st).trace = countJobW u st.trace :=
  countJobW_step u cfg _ _ st (fun v stt h => Tag.noConfusion h)

theorem countJobW_incStep (u : String) (cfg : Config) (b : Bool) (st : RState) :
    countJobW u (incStep cfg b st).trace = countJobW u st.trace :=
  countJobW_step u cfg _ _ st (fun v stt h => Tag.noConfusion h)

theorem countJobW_errorStep (u : String) (cfg : Config) (m : String) (st : RState) :
    countJobW u (errorStep cfg m st).trace = countJobW u st.trace :=
  countJobW_step u cfg _ _ st (fun v stt h => Tag.noConfusion h)

theorem countJobW_searchOpStep (u : String) (cfg : Config) (src : Source) (t loc : String)
    (st : RState) :
    countJobW u (opStep cfg (Tag.searchOp src t loc) st).trace = countJobW u st.trace :=
  countJobW_step u cfg _ id st (fun v stt h => Tag.noConfusion h)

theorem countJobW_applyOpStep (u : String) (cfg : Config) (src : Source) (l : Listing)
    (st : RState) :
    countJobW u (opStep cfg (Tag.applyOp src l) st).trace = countJobW u st.trace :=
  countJobW_step u cfg _ id st (fun v stt h => Tag.noConfusion h)

theorem countJobW_checkStep (u : String) (cfg : Config) (st : RState) :
    countJobW u (checkStep cfg st).1.trace = countJobW u st.trace := by
  show countJobW u ((inject cfg st).trace
    ++ [(Tag.check (isSessionStopped (inject cfg st).sess), (inject cfg st).sess)])
    = countJobW u st.trace
  rw [countJobW_append,
    countJobW_single_non u _ _ (fun v stt h => Tag.noConfusion h), countJobW_inject]
  omega

theorem countJobW_jobStatusStep (u v : String) (cfg : Config) (jst : JobStatus)
    (st : RState) :
    countJobW u (jobStatusStep cfg v jst st).trace
      = countJobW u st.trace + (if v = u then 1 else 0) := by
  show countJobW u ((inject cfg st).trace
      ++ [(Tag.jobW v jst, _)]) = countJobW u st.trace + (if v = u then 1 else 0)
  rw [countJobW_append, countJobW_inject]
  by_cases hv : v = u
  · simp [countJobW, hv]
  · simp [countJobW, hv]

theorem countJobW_appendJobsSteps (u : String) (cfg : Config) (ls : List Listing)
    (st : RState) :
    countJobW u (appendJobsSteps cfg ls st).trace = countJobW u st.trace := by
  simp only [appendJobsSteps]
  split
  · rw [countJobW_logStep, countJobW_step]
    intro v stt h
    exact Tag.noConfusion h
  · rfl

theorem countJobW_processJob (u : String) (cfg : Config) (src : Source) (l : Listing)
    (st : RState) :
    countJobW u (processJob cfg src l st).trace
      ≤ countJobW u st.trace + (if l.url = u then 1 else 0) := by
  simp only [processJob]
  split
  · exact Nat.le_add_right _ _
  · split
    · have h1 : countJobW u (checkStep cfg st).1.trace = countJobW u st.trace :=
        countJobW_checkStep u cfg st
      exact le_trans (Nat.le_of_eq h1) (Nat.le_add_right _ _)
    · split
      · have h1 : countJobW u (logStep cfg
            ("Skipping job at excluded company: " ++ l.company) LogType.info
            (checkStep cfg st).1).trace = countJobW u st.trace := by
          rw [countJobW_logStep, countJobW_checkStep]
        exact le_trans (Nat.le_of_eq h1) (Nat.le_add_right _ _)
      · split
        · rw [countJobW_incStep, countJobW_logStep, countJobW_jobStatusStep,
            countJobW_applyOpStep, countJobW_logStep, countJobW_checkStep]
        · rw [countJobW_incStep, countJobW_logStep, countJobW_jobStatusStep,
            countJobW_applyOpStep, countJobW_logStep, countJobW_checkStep]
        · rw [countJobW_incStep, countJobW_logStep, countJobW_jobStatusStep,
            countJobW_applyOpStep, countJobW_logStep, countJobW_checkStep]

theorem countJobW_jobsLoop (u : String) (cfg : Config) (src : Source) (ls : List Listing)
    (st : RState) :
    countJobW u (jobsLoop cfg src ls st).trace
      ≤ countJobW u st.trace + urlCount u (ls.map (fun l => l.url)) := by
  induction ls generalizing st with
  | nil => simp [jobsLoop, urlCount]
  | cons l ls ih =>
      simp only [jobsLoop]
      have h1 := countJobW_processJob u cfg src l st
      have h2 := ih (processJob cfg src l st)
      simp only [List.map_cons, urlCount]
      omega

theorem countJobW_runPair (u : String) (cfg : Config) (src : Source) (t loc : String)
    (st : RState) :
    countJobW u (runPair cfg src t loc st).trace
      ≤ countJobW u st.trace + urlCount u ((batchOf cfg src t loc).map (fun l => l.url)) := by
  simp only [runPair]
  split
  · exact Nat.le_add_right _ _
  · split
    · have h1 : countJobW u (logStep cfg "Session stopped by user" LogType.info
          (checkStep cfg st).1).trace = countJobW u st.trace := by
        rw [countJobW_logStep, countJobW_checkStep]
      exact le_trans (Nat.le_of_eq h1) (Nat.le_add_right _ _)
    · split
      · rename_i m heq
        have h1 : countJobW u (logStep cfg
            ("Error in " ++ srcName src ++ " job search: " ++ m) LogType.error
            (opStep cfg (Tag.searchOp src t loc)
              (logStep cfg ("Searching for " ++ t ++ " in " ++ loc) LogType.info
                (checkStep cfg st).1))).trace = countJobW u st.trace := by
          rw [countJobW_logStep, countJobW_searchOpStep, countJobW_logStep,
            countJobW_checkStep]
        exact le_trans (Nat.le_of_eq h1) (Nat.le_add_right _ _)
      · rename_i ls heq
        have hbatch : batchOf cfg src t loc = ls := by
          simp [batchOf, heq]
        rw [hbatch]
        have h1 := countJobW_jobsLoop u cfg src ls
          (appendJobsSteps cfg ls (opStep cfg (Tag.searchOp src t loc)
            (logStep cfg ("Searching for " ++ t ++ " in " ++ loc) LogType.info
              (checkStep cfg st).1)))
        rw [countJobW_appendJobsSteps, countJobW_searchOpStep, countJobW_logStep,
          countJobW_checkStep] at h1
        exact h1

theorem countJobW_runPairs (u : String) (cfg : Config) (src : Source)
    (ps : List (String × String)) (st : RState) :
    countJobW u (runPairs cfg src ps st).trace
      ≤ countJobW u st.trace + urlCount u (pairUrls cfg src ps) := by
  induction ps generalizing st with
  | nil => simp [runPairs, pairUrls, urlCount]
  | cons p ps ih =>
      simp only [runPairs]
      have h1 := countJobW_runPair u cfg src p.1 p.2 st
      have h2 := ih (runPair cfg src p.1 p.2 st)
      have hdec : pairUrls cfg src (p :: ps)
          = (batchOf cfg src p.1 p.2).map (fun l => l.url) ++ pairUrls cfg src ps := by
        simp [pairUrls]
      rw [hdec, urlCount_append]
      omega

theorem countJobW_searchSiteJobs (u : String) (cfg : Config) (src : Source) (st : RState) :
    countJobW u (searchSiteJobs cfg src st).trace
      ≤ countJobW u st.trace + urlCount u (pairUrls cfg src (pairsOf cfg)) := by
  simp only [searchSiteJobs]
  have h1 := countJobW_runPairs u cfg src (pairsOf cfg)
    (logStep cfg ("Starting " ++ srcName src ++ " job search") LogType.info
      { st with brk := false })
  rw [countJobW_logStep] at h1
  exact h1

theorem countJobW_run (u : String) (cfg : Config) :
    countJobW u (startAutoApplyProcess cfg).trace
      ≤ urlCount u ((allListings cfg).map (fun l => l.url)) := by
  have hbase : countJobW u (checkStep cfg (logStep cfg
      "Initializing browser for job search" LogType.info (initRState cfg))).1.trace = 0 := by
    rw [countJobW_checkStep, countJobW_logStep]
    rfl
  simp only [startAutoApplyProcess]
  split
  · rw [hbase]
    exact Nat.zero_le _
  · split
    · rw [countJobW_errorStep, hbase]
      exact Nat.zero_le _
    · have h1 := countJobW_searchSiteJobs u cfg Source.linkedin
        (checkStep cfg (logStep cfg "Initializing browser for job search" LogType.info
          (initRState cfg))).1
      have h2 := countJobW_searchSiteJobs u cfg Source.indeed
        (searchSiteJobs cfg Source.linkedin
          (checkStep cfg (logStep cfg "Initializing browser for job search" LogType.info
            (initRState cfg))).1)
      have h3 := countJobW_step u cfg (Tag.statusW Status.completed)
        (fun s => { s with status := Status.completed,
                           logs := s.logs ++
                             [{ message := "Auto-apply session completed",
                                type := LogType.info }] })
        (searchSiteJobs cfg Source.indeed (searchSiteJobs cfg Source.linkedin
          (checkStep cfg (logStep cfg "Initializing browser for job search" LogType.info
            (initRState cfg))).1))
        (fun v stt h => Tag.noConfusion h)
      rw [h3, allUrls_decomp, urlCount_append, urlCount_append]
      omega

/-- Claim C5 (amended): at every observable snapshot `jobsFound` equals
the length of the `jobs` array, unconditionally; and provided no URL is
scraped more than once over the whole run (all listings of all search
batches have pairwise-distinct URLs), the counter inequality
`applicationsSubmitted + applicationsSkipped <= jobsFound` holds at
every snapshot and each job URL's status is written at most once. -/
theorem c5_counters_amended (cfg : Config) :
    (∀ s ∈ snapshots cfg, s.jobsFound = s.jobs.length) ∧
    (((allListings cfg).map (fun l => l.url)).Nodup →
      (∀ s ∈ snapshots cfg,
          s.applicationsSubmitted + s.applicationsSkipped ≤ s.jobsFound) ∧
      ∀ u, countJobW u (startAutoApplyProcess cfg).trace ≤ 1) := by
  constructor
  · intro s hs
    rcases List.mem_cons.mp hs with hs | hs
    · subst hs
      simp [Config.initSession, freshSession]
    · obtain ⟨e, he, hes⟩ := List.mem_map.mp hs
      have ha : Ainv e.2 := (ainv_run cfg).2 e he
      rw [← hes]
      exact ha
  · intro hnd
    constructor
    · intro s hs
      rcases List.mem_cons.mp hs with hs | hs
      · subst hs
        simp [Config.initSession, freshSession]
      · obtain ⟨e, he, hes⟩ := List.mem_map.mp hs
        have hb : Binv e.2 := (jinv_run cfg hnd).1 e he
        unfold Binv sumC at hb
        rw [← hes]
        exact hb
    · intro u
      have h1 := countJobW_run u cfg
      have h2 := urlCount_le_one_of_nodup hnd u
      omega

def lstC5A : Listing :=
  { title := "Backend Engineer", company := "AcmeSoft", location := "Remote",
    url := "https://li/c5a", source := Source.linkedin }

def lstC5B : Listing :=
  { title := "Backend Engineer", company := "Initech", location := "Remote",
    url := "https://in/c5b", source := Source.indeed }

/-- Per-site search: one distinct listing on each site. -/
def searchPerSite : Source → String → String → SearchOutcome
  | Source.linkedin, _, _ => SearchOutcome.ok [lstC5A]
  | Source.indeed, _, _ => SearchOutcome.ok [lstC5B]

def cfgC5 : Config :=
  { userId := "u7", jobTitles := ["Backend Engineer"], locations := ["Remote"],
    salaryRange := none, excludeCompanies := [], includeRemote := none,
    hasProfile := true, search := searchPerSite, applyRes := applyAlways, stopAt := none }

/-- Claim C5 witness: the amended invariants evaluated on a run that
scrapes one distinct listing from each site and applies to both. -/
theorem c5_counters_amended_witness :
    ((allListings cfgC5).map (fun l => l.url)).Nodup ∧
    (∀ s ∈ snapshots cfgC5, s.jobsFound = s.jobs.length) ∧
    (∀ s ∈ snapshots cfgC5,
        s.applicationsSubmitted + s.applicationsSkipped ≤ s.jobsFound) ∧
    countJobW "https://li/c5a" (startAutoApplyProcess cfgC5).trace ≤ 1 := by
  have hnd : ((allListings cfgC5).map (fun l => l.url)).Nodup := by decide
  exact ⟨hnd, (c5_counters_amended cfgC5).1,
    ((c5_counters_amended cfgC5).2 hnd).1,
    ((c5_counters_amended cfgC5).2 hnd).2 "https://li/c5a"⟩
